import Mathlib

/-!
# FXCM FIX example application: request ids, session lookup, account ledger, handlers

A shallow embedding of `src/fix_application.cpp` (class `FixApplication`).  The object's
mutable members become the fields of `App`; every member function becomes a function that
takes the state and returns the new one.  Messages handed to `Session::sendToTarget` are
appended to `App.sent`, lines written to `cout` are appended to `App.console`.
-/

namespace FXCM

/-! ## Engine types used by the application -/

/-- Modelled from the spec: the engine's `SessionID` class is not part of the sources.  The
spec describes a session as an opaque handle with a stable display identifier; the handle is
modelled by that identifier (what `toString()` returns). -/
structure SessionID where
  toString : String
  deriving DecidableEq, Repr

/-- Modelled from the spec: the default-constructed handle `SessionID()`, the spec's
"empty/null handle".  It carries no identifier text. -/
def SessionID.empty : SessionID := ⟨""⟩

/-- Value of the FIX field SubscriptionRequestType (263). -/
inductive SubscriptionRequestType where
  | SNAPSHOT
  | SNAPSHOT_PLUS_UPDATES
  | DISABLE_PREVIOUS_SNAPSHOT_PLUS_UPDATE_REQUEST
  deriving DecidableEq, Repr

/-- Value of the FIX field MDEntryType (269) as used by the market data requests. -/
inductive MDEntryType where
  | BID
  | OFFER
  | TRADING_SESSION_HIGH_PRICE
  | TRADING_SESSION_LOW_PRICE
  deriving DecidableEq, Repr

/-- The `NoPartySubIDs` group of a `RequestForPositions`. -/
structure PartySubGroup where
  PartySubIDType : String
  PartySubID : String
  deriving DecidableEq, Repr

/-- The `NoPartyIDs` group of a `RequestForPositions`. -/
structure PartyGroup where
  PartyID : String
  PartyIDSource : Char
  PartyRole : Int
  NoPartySubIDs : Int
  subGroups : List PartySubGroup
  deriving DecidableEq, Repr

/-- Outbound application messages, one constructor per message class built in the source,
with the fields the source sets. -/
inductive Outbound where
  | TradingSessionStatusRequest (TradSesReqID TradingSessionID : String)
      (subscriptionRequestType : SubscriptionRequestType)
  | CollateralInquiry (CollInquiryID TradingSessionID : String)
      (subscriptionRequestType : SubscriptionRequestType)
  | RequestForPositions (PosReqID : String) (PosReqType : Int) (Account : String)
      (subscriptionRequestType : SubscriptionRequestType) (AccountType : Int)
      (TransactTime ClearingBusinessDate TradingSessionID : String) (NoPartyIDs : Int)
      (parties : List PartyGroup)
  | MarketDataRequest (MDReqID : String) (subscriptionRequestType : SubscriptionRequestType)
      (MarketDepth NoRelatedSym : Int) (symbols : List String) (entryTypes : List MDEntryType)
  | NewOrderSingle (ClOrdID Account Symbol TradingSessionID TransactTime : String)
      (OrderQty : Int) (Side OrdType TimeInForce : Char)
  deriving DecidableEq, Repr

/-- The correlation token of an outbound message: the request-id field of its class
(TradSesReqID, CollInquiryID, PosReqID, MDReqID, ClOrdID). -/
def Outbound.requestToken : Outbound → String
  | .TradingSessionStatusRequest r _ _ => r
  | .CollateralInquiry r _ _ => r
  | .RequestForPositions r _ _ _ _ _ _ _ _ _ => r
  | .MarketDataRequest r _ _ _ _ _ => r
  | .NewOrderSingle r _ _ _ _ _ _ _ _ => r

/-- The members of `FixApplication` (fix_application.h) that the handlers read or write,
together with the two outputs of the program: the messages passed to
`Session::sendToTarget` (oldest first, each with its target) and the lines written to
`cout`.  `now` is the UTC timestamp the engine puts in a default-constructed
`TransactTime()`. -/
structure App where
  requestID : Nat
  sessions : List SessionID
  list_accountID : List String
  sent : List (Outbound × SessionID)
  console : List String
  now : String
  deriving DecidableEq, Repr

/-! ## Integer conversion (engine helper `IntConvertor`) -/

/-- Conversion of an unsigned integer to `int`: the low 32 bits, read in two's complement.
It is the conversion of the `unsigned int` counter passed to `IntConvertor::convert` and
the cast `(int)list_accountID.size()`. -/
def toSignedInt (n : Nat) : Int :=
  if n % 2 ^ 32 < 2 ^ 31 then (n % 2 ^ 32 : Nat) else ((n % 2 ^ 32 : Nat) : Int) - 2 ^ 32

/-- `IntConvertor::convert(int)`: the decimal rendering of a signed integer. -/
def IntConvertor.convert (x : Int) : String :=
  if x < 0 then "-" ++ Nat.repr x.natAbs else Nat.repr x.natAbs

/-- The digit loop of `IntConvertor::convert(const std::string&, int&)`: every character
must be a decimal digit; `x = 10 * x + c`. -/
def IntConvertor.digitLoop : List Char → Int → Option Int
  | [], x => some x
  | ch :: rest, x =>
    let c : Int := (ch.toNat : Int) - 48
    if c < 0 ∨ 9 < c then none else IntConvertor.digitLoop rest (10 * x + c)

/-- `IntConvertor::convert(const std::string&)`: an optional minus sign followed by at least
one decimal digit; `none` stands for the `FieldConvertError` it throws otherwise. -/
def IntConvertor.convertString (value : String) : Option Int :=
  match value.data with
  | [] => none
  | '-' :: rest => if rest = [] then none else (IntConvertor.digitLoop rest 0).map (fun x => -x)
  | str => IntConvertor.digitLoop str 0

/-! ## Request ids -/

/-- `FixApplication::FixApplication()`: the counter starts at 1, the containers are empty. -/
def FixApplication (now : String) : App :=
  { requestID := 1, sessions := [], list_accountID := [], sent := [], console := [], now := now }

/-- `FixApplication::NextRequestID`: reset at 65535, increment (`unsigned int`, 32 bits),
return the decimal rendering of the counter. -/
def NextRequestID (app : App) : String × App :=
  let requestID := if app.requestID = 65535 then 1 else app.requestID
  let requestID := (requestID + 1) % 2 ^ 32
  (IntConvertor.convert (toSignedInt requestID), { app with requestID := requestID })

/-- The state after `k` consecutive calls of `NextRequestID`. -/
def afterAllocations : Nat → App → App
  | 0, app => app
  | k + 1, app => (NextRequestID (afterAllocations k app)).2

/-- The ids returned by `n` consecutive `NextRequestID` calls, in call order. -/
def allocIds : Nat → App → List String
  | 0, _ => []
  | n + 1, app => (NextRequestID app).1 :: allocIds n (NextRequestID app).2

/-- The id returned by the `k`-th of a run of consecutive `NextRequestID` calls
(`k = 1` is the first call). -/
def nthRequestID (k : Nat) (app : App) : String :=
  (NextRequestID (afterAllocations (k - 1) app)).1

/-! ## Session lookup -/

/-- `std::string::find` on character sequences, searching from offset `pos`:
the first position at which `pat` occurs, `none` for `npos`. -/
def findFrom (pat : List Char) : List Char → Nat → Option Nat
  | [], pos => if pat = [] then some pos else none
  | c :: cs, pos => if pat.isPrefixOf (c :: cs) then some pos else findFrom pat cs (pos + 1)

/-- `s.find(pat)`; `none` stands for `string::npos`. -/
def stdFind (s pat : String) : Option Nat := findFrom pat.data s.data 0

/-- The test `session.toString().find("MD_") != string::npos` of `sessionID`: the derived
role of a session, `true` for market data and `false` for trading. -/
def isMarketData (session : SessionID) : Bool := (stdFind session.toString "MD_").isSome

/-- The loop of `FixApplication::sessionID`: the first session for which
`(session.toString().find("MD_") != npos) == md`, else `SessionID()`. -/
def sessionID.scan (md : Bool) : List SessionID → SessionID
  | [] => SessionID.empty
  | session :: rest =>
    if (isMarketData session == md) then session else sessionID.scan md rest

/-- `FixApplication::sessionID(bool md)`. -/
def sessionID (app : App) (md : Bool) : SessionID := sessionID.scan md app.sessions

/-- `Session::sendToTarget(request, target)`: the message is handed to the engine. -/
def sendToTarget (app : App) (request : Outbound) (target : SessionID) : App :=
  { app with sent := app.sent ++ [(request, target)] }

/-- One `cout << ... << endl` statement. -/
def cout (app : App) (line : String) : App :=
  { app with console := app.console ++ [line] }

/-! ## Market data subscription -/

/-- The four `NoMDEntryTypes` groups added by both market data requests. -/
def mdEntryTypes : List MDEntryType :=
  [.BID, .OFFER, .TRADING_SESSION_HIGH_PRICE, .TRADING_SESSION_LOW_PRICE]

/-- `FixApplication::SubscribeMarketData(string strPair)`. -/
def SubscribeMarketData (app : App) (strPair : String) : App :=
  let request_ID := strPair ++ "_Request_"
  let request := Outbound.MarketDataRequest request_ID
    SubscriptionRequestType.SNAPSHOT_PLUS_UPDATES 0 1 [strPair] mdEntryTypes
  sendToTarget app request (sessionID app true)

/-- `FixApplication::UnsubscribeMarketData()`. -/
def UnsubscribeMarketData (app : App) : App :=
  let request_ID := "EUR_USD_Request_"
  let request := Outbound.MarketDataRequest request_ID
    SubscriptionRequestType.DISABLE_PREVIOUS_SNAPSHOT_PLUS_UPDATE_REQUEST 0 1 ["EUR/USD"]
    mdEntryTypes
  sendToTarget app request (sessionID app true)

/-! ## Session life cycle and request builders -/

/-- `FixApplication::onCreate`: report the session and append it to `sessions`. -/
def onCreate (app : App) (session_ID : SessionID) : App :=
  let app := cout app ("Session -> created" ++ session_ID.toString)
  { app with sessions := app.sessions ++ [session_ID] }

/-- `FixApplication::GetTradingStatus`. -/
def GetTradingStatus (app : App) : App :=
  let (id, app) := NextRequestID app
  let request := Outbound.TradingSessionStatusRequest id "FXCM" SubscriptionRequestType.SNAPSHOT
  sendToTarget app request (sessionID app false)

/-- `FixApplication::onLogon`: report the logon and request the trading session status. -/
def onLogon (app : App) (session_ID : SessionID) : App :=
  let app := cout app ("Session -> logon" ++ session_ID.toString)
  GetTradingStatus app

/-- `FixApplication::onLogout`. -/
def onLogout (app : App) (session_ID : SessionID) : App :=
  cout app ("Session -> logout" ++ session_ID.toString)

/-- `FixApplication::GetAccounts`. -/
def GetAccounts (app : App) : App :=
  let (id, app) := NextRequestID app
  let request := Outbound.CollateralInquiry id "FXCM" SubscriptionRequestType.SNAPSHOT
  sendToTarget app request (sessionID app false)

/-- FIX 4.4 value of `PosReqType_POSITIONS`. -/
def PosReqType_POSITIONS : Int := 0

/-- FIX 4.4 value of
`AccountType_ACCOUNT_IS_CARRIED_ON_NON_CUSTOMER_SIDE_OF_BOOKS_AND_IS_CROSS_MARGINED`. -/
def AccountType_NON_CUSTOMER_CROSS_MARGINED : Int := 6

/-- FIX 4.4 value of `PartySubIDType_SECURITIES_ACCOUNT_NUMBER`, as field text. -/
def PartySubIDType_SECURITIES_ACCOUNT_NUMBER : String := "10"

/-- The `RequestForPositions` message built in the body of the loop of `GetPositions`, for
the request id `posReqID` and the account `accountID`.  `TransactTime()` is the engine's
current time, `ClearingBusinessDate()` is default-constructed (no text). -/
def positionsRequest (now posReqID accountID : String) : Outbound :=
  Outbound.RequestForPositions posReqID PosReqType_POSITIONS accountID
    SubscriptionRequestType.SNAPSHOT AccountType_NON_CUSTOMER_CROSS_MARGINED now "" "FXCM" 1
    [{ PartyID := "FXCM ID", PartyIDSource := 'D', PartyRole := 3, NoPartySubIDs := 1,
       subGroups := [{ PartySubIDType := PartySubIDType_SECURITIES_ACCOUNT_NUMBER,
                       PartySubID := accountID }] }]

/-- The loop of `GetPositions`, `for (int i = 0; i < total_accounts; i++)`: the first
argument is the number of iterations left, `total_accounts - i`. -/
def GetPositions.loop : Nat → Nat → App → App
  | 0, _, app => app
  | left + 1, i, app =>
    match app.list_accountID[i]? with
    | none => app -- `at(i)` out of range: not reached, `i < total_accounts`
    | some accountID =>
      let (id, app) := NextRequestID app
      let request := positionsRequest app.now id accountID
      GetPositions.loop left (i + 1) (sendToTarget app request (sessionID app false))

/-- `FixApplication::GetPositions`; `total_accounts` is `(int)list_accountID.size()`, and a
loop with a bound that is not positive does not run. -/
def GetPositions (app : App) : App :=
  let total_accounts : Int := toSignedInt app.list_accountID.length
  GetPositions.loop total_accounts.toNat 0 app

/-- The `NewOrderSingle` message built in the body of the loop of `MarketOrder`. -/
def marketOrderRequest (now clOrdID accountID : String) : Outbound :=
  Outbound.NewOrderSingle clOrdID accountID "EUR/USD" "FXCM" now 10000 '1' '1' '1'

/-- The loop of `MarketOrder`; the first argument is the number of iterations left. -/
def MarketOrder.loop : Nat → Nat → App → App
  | 0, _, app => app
  | left + 1, i, app =>
    match app.list_accountID[i]? with
    | none => app -- `at(i)` out of range: not reached, `i < total_accounts`
    | some accountID =>
      let (id, app) := NextRequestID app
      let request := marketOrderRequest app.now id accountID
      MarketOrder.loop left (i + 1) (sendToTarget app request (sessionID app false))

/-- `FixApplication::MarketOrder`; `total_accounts` is `(int)list_accountID.size()`, and a
loop with a bound that is not positive does not run. -/
def MarketOrder (app : App) : App :=
  let total_accounts : Int := toSignedInt app.list_accountID.length
  MarketOrder.loop total_accounts.toNat 0 app

/-! ## Account ledger -/

/-- The `for` loop in the else branch of `RecordAccount`, `for (int i = 0; i < size; i++)`
with the `int size` read before the loop: stop at the first element equal to `accountID`;
at the index `size - 1` append `accountID`.  The first argument is the number of iterations
left. -/
def RecordAccount.loop (accountID : String) (size : Int) : Nat → Nat → List String → List String
  | 0, _, list => list
  | left + 1, i, list =>
    match list[i]? with
    | none => list -- `at(i)` out of range: not reached, `i < size`
    | some x =>
      if x = accountID then list
      else
        let list := if (i : Int) = size - 1 then list ++ [accountID] else list
        RecordAccount.loop accountID size left (i + 1) list

/-- `FixApplication::RecordAccount`; `size` is `(int)list_accountID.size()`, and a loop with
a bound that is not positive does not run. -/
def RecordAccount (app : App) (accountID : String) : App :=
  let size : Int := toSignedInt app.list_accountID.length
  if size = 0 then
    { app with list_accountID := app.list_accountID ++ [accountID] }
  else
    { app with
      list_accountID := RecordAccount.loop accountID size size.toNat 0 app.list_accountID }

/-- One `NoRelatedSym` group of the security list embedded in a `TradingSessionStatus`. -/
structure SymbolGroup where
  Symbol : Option String
  deriving DecidableEq, Repr

/-- One `FXCMNoParam` (9016) group of a `TradingSessionStatus`. -/
structure ParamGroup where
  FXCMParamName : Option String
  FXCMParamValue : Option String
  deriving DecidableEq, Repr

/-- Inbound `TradingSessionStatus`: the fields and groups the handler reads. -/
structure TradingSessionStatus where
  TradSesStatus : Option String
  NoRelatedSym : Option String
  relatedSym : List SymbolGroup
  FXCMNoParam : Option String
  params : List ParamGroup
  deriving DecidableEq, Repr

/-- One `NoPartySubIDs` group of a `CollateralReport`. -/
structure ReportSubGroup where
  PartySubIDType : Option String
  PartySubID : Option String
  deriving DecidableEq, Repr

/-- One `NoPartyIDs` group of a `CollateralReport`. -/
structure ReportPartyGroup where
  NoPartySubIDs : Option String
  subGroups : List ReportSubGroup
  deriving DecidableEq, Repr

/-- Inbound `CollateralReport`: the fields and groups the handler reads. -/
structure CollateralReport where
  Account : Option String
  CashOutstanding : Option String
  parties : List ReportPartyGroup
  deriving DecidableEq, Repr

/-- `getGroup(num, group)` / `getGroupRef(num, field)`: the `num`-th group, counted from 1;
`none` (the engine throws `FieldNotFound`) when there is no such group. -/
def getGroup {α : Type} (groups : List α) (num : Int) : Option α :=
  if num ≤ 0 then none else groups[(num - 1).toNat]?

/-- The first loop of the `TradingSessionStatus` handler,
`for (i = 1; i <= symbols_count; i++)`; the first argument is the number of iterations left. -/
def symbolsLoop (tss : TradingSessionStatus) : Nat → Int → App → Option App
  | 0, _, app => some app
  | left + 1, i, app =>
    (getGroup tss.relatedSym i).bind fun symbols_group =>
    symbols_group.Symbol.bind fun symbol =>
    symbolsLoop tss left (i + 1) (cout app ("    Symbol -> " ++ symbol))

/-- The second loop of the `TradingSessionStatus` handler,
`for (i = 1; i < params_count; i++)`; the first argument is the number of iterations left. -/
def paramsLoop (tss : TradingSessionStatus) : Nat → Int → App → Option App
  | 0, _, app => some app
  | left + 1, i, app =>
    (getGroup tss.params i).bind fun field_map =>
    field_map.FXCMParamName.bind fun name =>
    field_map.FXCMParamValue.bind fun value =>
    paramsLoop tss left (i + 1)
      (cout app ("    Param Name -> " ++ name ++ " - Param Value -> " ++ value))

/-- `FixApplication::onMessage(const FIX44::TradingSessionStatus&, ...)`. -/
def onMessage_TradingSessionStatus (app : App) (tss : TradingSessionStatus) : Option App :=
  tss.TradSesStatus.bind fun trad_status =>
  let app := cout app ("TradingSessionStatus -> TradSesStatus -" ++ trad_status)
  let app := cout app "  SecurityList via TradingSessionStatus -> "
  tss.NoRelatedSym.bind fun noRelatedSym =>
  (IntConvertor.convertString noRelatedSym).bind fun symbols_count =>
  (symbolsLoop tss symbols_count.toNat 1 app).bind fun app =>
  let app := cout app "  System Parameters via TradingSessionStatus -> "
  tss.FXCMNoParam.bind fun noParam =>
  (IntConvertor.convertString noParam).bind fun params_count =>
  (paramsLoop tss (params_count - 1).toNat 1 app).bind fun app =>
  some (GetAccounts app)

/-- `FixApplication::onMessage(const FIX44::CollateralInquiryAck&, ...)`: empty body. -/
def onMessage_CollateralInquiryAck (app : App) : Option App := some app

/-- The loop of the `CollateralReport` handler, `for (u = 1; u <= number_subID; u++)`; the
first argument is the number of iterations left. -/
def subIDLoop (group : ReportPartyGroup) : Nat → Int → App → Option App
  | 0, _, app => some app
  | left + 1, u, app =>
    (getGroup group.subGroups u).bind fun sub_group =>
    sub_group.PartySubIDType.bind fun sub_type =>
    sub_group.PartySubID.bind fun sub_value =>
    subIDLoop group left (u + 1) (cout app ("    " ++ sub_type ++ " -> " ++ sub_value))

/-- `FixApplication::onMessage(const FIX44::CollateralReport&, ...)`. -/
def onMessage_CollateralReport (app : App) (cr : CollateralReport) : Option App :=
  let app := cout app "CollateralReport -> "
  cr.Account.bind fun accountID =>
  cr.CashOutstanding.bind fun balance =>
  let app := cout app ("  AccountID -> " ++ accountID)
  let app := cout app ("  Balance -> " ++ balance)
  (getGroup cr.parties 1).bind fun group =>
  let app := cout app "  Parties -> "
  group.NoPartySubIDs.bind fun noPartySubIDs =>
  (IntConvertor.convertString noPartySubIDs).bind fun number_subID =>
  (subIDLoop group number_subID.toNat 1 app).bind fun app =>
  some (RecordAccount app accountID)

/-- A `TradingSessionStatus` as the counterparty sends it: the status is there, both group
counts are there and equal the number of groups carried, and every group has its fields. -/
def TradingSessionStatus.wellFormed (tss : TradingSessionStatus) : Prop :=
  tss.TradSesStatus.isSome = true ∧
  tss.NoRelatedSym.bind IntConvertor.convertString = some (tss.relatedSym.length : Int) ∧
  (∀ g ∈ tss.relatedSym, g.Symbol.isSome = true) ∧
  tss.FXCMNoParam.bind IntConvertor.convertString = some (tss.params.length : Int) ∧
  (∀ g ∈ tss.params, g.FXCMParamName.isSome = true ∧ g.FXCMParamValue.isSome = true)

/-- A `CollateralReport` as the counterparty sends it: account and balance are there, there
is one `NoPartyIDs` group, its sub-group count equals the number of sub-groups carried, and
every sub-group has its fields. -/
def CollateralReport.wellFormed (cr : CollateralReport) : Prop :=
  cr.Account.isSome = true ∧ cr.CashOutstanding.isSome = true ∧
  cr.parties.length = 1 ∧
  ∀ group ∈ cr.parties,
    group.NoPartySubIDs.bind IntConvertor.convertString = some (group.subGroups.length : Int) ∧
    (∀ g ∈ group.subGroups, g.PartySubIDType.isSome = true ∧ g.PartySubID.isSome = true)

instance (tss : TradingSessionStatus) : Decidable tss.wellFormed := by
  unfold TradingSessionStatus.wellFormed; infer_instance

instance (cr : CollateralReport) : Decidable cr.wellFormed := by
  unfold CollateralReport.wellFormed; infer_instance

/-- Two states that differ at most in the console output. -/
def App.sameButConsole (a b : App) : Prop :=
  a.requestID = b.requestID ∧ a.sessions = b.sessions ∧
  a.list_accountID = b.list_accountID ∧ a.sent = b.sent ∧ a.now = b.now

/-! ## Registry growth -/

/-- The state reached from `app` through the session-creation notifications `created`, one
`onCreate` call each, in order. -/
def createAll (app : App) (created : List SessionID) : App := created.foldl onCreate app

/-- The number of sessions in a list whose derived role is `md`. -/
def roleCount (md : Bool) (sessions : List SessionID) : Nat :=
  (sessions.filter (fun s => isMarketData s == md)).length

/-! ## Market data snapshots -/

/-- The operations on `double` used by the snapshot handler.  The type of doubles is a
parameter of the model: `zero` is the literal `0`, `convert` is the engine's
`DoubleConvertor::convert` (`none` when it throws `FieldConvertError`), and `print` is the
text `cout <<` writes for a double. -/
structure DoubleOps (D : Type) where
  zero : D
  convert : String → Option D
  print : D → String

/-- A stand-in for the doubles in which a price is kept as the text it was sent as. -/
def textDoubles : DoubleOps String :=
  { zero := "0", convert := fun s => some s, print := fun s => s }

/-- One `NoMDEntries` group of a `MarketDataSnapshotFullRefresh`. -/
structure MDEntryGroup where
  MDEntryType : Option String
  MDEntryPx : Option String
  deriving DecidableEq, Repr

/-- Inbound `MarketDataSnapshotFullRefresh`: the fields and groups the handler reads. -/
structure MarketDataSnapshotFullRefresh where
  Symbol : Option String
  NoMDEntries : Option String
  entries : List MDEntryGroup
  deriving DecidableEq, Repr

/-- The loop of the snapshot handler, `for (i = 1; i < entry_count; i++)`, on the pair
`(bid_price, ask_price)`; the first argument is the number of iterations left. -/
def entriesLoop {D : Type} (ops : DoubleOps D) (mds : MarketDataSnapshotFullRefresh) :
    Nat → Int → D × D → Option (D × D)
  | 0, _, prices => some prices
  | left + 1, i, (bid_price, ask_price) =>
    (getGroup mds.entries i).bind fun group =>
    group.MDEntryType.bind fun entry_type =>
    if entry_type = "0" then
      group.MDEntryPx.bind fun px =>
      (ops.convert px).bind fun price =>
      entriesLoop ops mds left (i + 1) (price, ask_price)
    else if entry_type = "1" then
      group.MDEntryPx.bind fun px =>
      (ops.convert px).bind fun price =>
      entriesLoop ops mds left (i + 1) (bid_price, price)
    else entriesLoop ops mds left (i + 1) (bid_price, ask_price)

/-- The line the snapshot handler writes. -/
def snapshotLine {D : Type} (ops : DoubleOps D) (symbol : String) (bid_price ask_price : D) :
    String :=
  "MarketDataSnapshotFullRefresh -> Symbol - " ++ symbol ++ " Bid - " ++ ops.print bid_price
    ++ " Ask - " ++ ops.print ask_price

/-- `FixApplication::onMessage(const FIX44::MarketDataSnapshotFullRefresh&, ...)`. -/
def onMessage_MarketDataSnapshotFullRefresh {D : Type} (ops : DoubleOps D) (app : App)
    (mds : MarketDataSnapshotFullRefresh) : Option App :=
  mds.Symbol.bind fun symbol =>
  let bid_price := ops.zero
  let ask_price := ops.zero
  mds.NoMDEntries.bind fun noMDEntries =>
  (IntConvertor.convertString noMDEntries).bind fun entry_count =>
  (entriesLoop ops mds (entry_count - 1).toNat 1 (bid_price, ask_price)).bind fun prices =>
  some (cout app (snapshotLine ops symbol prices.1 prices.2))

/-- The last entry of a list whose MDEntryType is `ty`, if there is one. -/
def lastOfType (ty : String) : List MDEntryGroup → Option MDEntryGroup
  | [] => none
  | g :: rest =>
    match lastOfType ty rest with
    | some x => some x
    | none => if g.MDEntryType = some ty then some g else none

/-- The price reported for the entry type `ty` over the inspected entries: the converted
price of the last entry of that type, or the initial value `init` (in the handler `0`)
when there is none. -/
def IsReported {D : Type} (ops : DoubleOps D) (ty : String) (init : D)
    (inspected : List MDEntryGroup) (price : D) : Prop :=
  match lastOfType ty inspected with
  | none => price = init
  | some g => g.MDEntryPx.bind ops.convert = some price

/-- An entry the loop passes: it has a type, and a convertible price when it is a bid or an
ask. -/
def entryReadable {D : Type} (ops : DoubleOps D) (g : MDEntryGroup) : Bool :=
  match g.MDEntryType with
  | none => false
  | some ty =>
    if ty = "0" ∨ ty = "1" then (g.MDEntryPx.bind ops.convert).isSome else true

/-! ## First-occurrence order (the ledger's specification) -/

end FXCM

namespace FXCM

/-! ## Decimal rendering and parsing -/

theorem digitChar_value (m : Nat) (h : m < 10) :
    ((Nat.digitChar m).toNat : Int) - 48 = m := by
  interval_cases m <;> rfl

theorem digitLoop_toDigitsCore (fuel : Nat) :
    ∀ (n : Nat) (ds : List Char), n < fuel →
      IntConvertor.digitLoop (Nat.toDigitsCore 10 fuel n ds) 0
        = IntConvertor.digitLoop ds n := by
  induction fuel with
  | zero => intro n ds h; omega
  | succ fuel ih =>
    intro n ds h
    have hd := digitChar_value (n % 10) (Nat.mod_lt _ (by norm_num))
    have hstep : IntConvertor.digitLoop (Nat.digitChar (n % 10) :: ds) ((n / 10 : Nat) : Int)
        = IntConvertor.digitLoop ds n := by
      simp only [IntConvertor.digitLoop, hd]
      have h1 : ¬ (((n % 10 : Nat) : Int) < 0 ∨ 9 < ((n % 10 : Nat) : Int)) := by omega
      rw [if_neg h1]
      congr 1
      omega
    simp only [Nat.toDigitsCore]
    split
    · rename_i h0
      rw [h0] at hstep
      exact_mod_cast hstep
    · rename_i h0
      rw [ih (n / 10) _ (by omega), hstep]

theorem toDigitsCore_ne_nil (fuel : Nat) :
    ∀ (n : Nat) (ds : List Char), ds ≠ [] → Nat.toDigitsCore 10 fuel n ds ≠ [] := by
  induction fuel with
  | zero => intro n ds h; simpa [Nat.toDigitsCore] using h
  | succ fuel ih =>
    intro n ds _
    simp only [Nat.toDigitsCore]
    split
    · simp
    · exact ih _ _ (by simp)

theorem toDigits_ne_nil (n : Nat) : Nat.toDigits 10 n ≠ [] := by
  unfold Nat.toDigits
  simp only [Nat.toDigitsCore]
  split
  · simp
  · exact toDigitsCore_ne_nil _ _ _ (by simp)

/-- Parsing the decimal rendering of a natural number gives the number back. -/
theorem convertString_repr (n : Nat) :
    IntConvertor.convertString (Nat.repr n) = some (n : Int) := by
  have h := digitLoop_toDigitsCore (n + 1) n [] (Nat.lt_succ_self n)
  simp only [IntConvertor.digitLoop] at h
  have hne := toDigits_ne_nil n
  have hdata : (Nat.repr n).data = Nat.toDigits 10 n := rfl
  unfold IntConvertor.convertString
  rw [hdata]
  unfold Nat.toDigits at hne ⊢
  generalize Nat.toDigitsCore 10 (n + 1) n [] = l at h hne
  match l, h, hne with
  | [], _, hne => exact absurd rfl hne
  | c :: rest, h, _ =>
    by_cases hc : c = '-'
    · subst hc
      simp [IntConvertor.digitLoop] at h
    · split
      · rename_i heq; simp at heq
      · rename_i heq
        simp only [List.cons.injEq] at heq
        exact absurd heq.1 hc
      · exact h

/-- The decimal rendering of natural numbers is injective. -/
theorem repr_injective {a b : Nat} (h : Nat.repr a = Nat.repr b) : a = b := by
  have ha := convertString_repr a
  rw [h, convertString_repr b] at ha
  exact_mod_cast (Option.some.inj ha).symm

/-! ## Request ids -/

theorem convert_toSignedInt (m : Nat) (h : m < 2 ^ 31) :
    IntConvertor.convert (toSignedInt m) = Nat.repr m := by
  have hm : m % 2 ^ 32 = m := Nat.mod_eq_of_lt (by omega)
  unfold toSignedInt IntConvertor.convert
  rw [hm, if_pos h]
  simp

/-- One allocation from a counter in `[1, 65535]`: the new counter, in closed form, and the
id returned, which is its decimal rendering. -/
theorem NextRequestID_closed (app : App) (h1 : 1 ≤ app.requestID) (h2 : app.requestID ≤ 65535) :
    NextRequestID app
      = (Nat.repr ((app.requestID + 65533) % 65534 + 2),
         { app with requestID := (app.requestID + 65533) % 65534 + 2 }) := by
  have hnew : ((if app.requestID = 65535 then 1 else app.requestID) + 1) % 2 ^ 32
      = (app.requestID + 65533) % 65534 + 2 := by
    split <;> omega
  unfold NextRequestID
  simp only [hnew]
  rw [convert_toSignedInt _ (by omega)]

theorem NextRequestID_from_one (app : App) (h : app.requestID = 1) :
    NextRequestID app = ("2", { app with requestID := 2 }) := by
  rw [NextRequestID_closed app (by omega) (by omega)]
  have h2 : (app.requestID + 65533) % 65534 + 2 = 2 := by omega
  rw [h2]
  rfl

theorem afterAllocations_fields (k : Nat) (app : App) :
    (afterAllocations k app).sessions = app.sessions ∧
    (afterAllocations k app).list_accountID = app.list_accountID ∧
    (afterAllocations k app).sent = app.sent ∧
    (afterAllocations k app).console = app.console ∧
    (afterAllocations k app).now = app.now := by
  induction k with
  | zero => simp [afterAllocations]
  | succ k ih => simpa [afterAllocations, NextRequestID] using ih

/-- The counter after `k ≥ 1` allocations from a counter `c` in `[1, 65535]` is
`(c + 65532 + k) mod 65534 + 2`. -/
theorem afterAllocations_requestID (app : App) (h1 : 1 ≤ app.requestID)
    (h2 : app.requestID ≤ 65535) :
    ∀ k, 1 ≤ k → (afterAllocations k app).requestID = (app.requestID + 65532 + k) % 65534 + 2 := by
  intro k hk
  induction k with
  | zero => omega
  | succ k ih =>
    rcases Nat.eq_zero_or_pos k with h0 | hpos
    · subst h0
      simp only [afterAllocations]
      rw [NextRequestID_closed app h1 h2]
    · have ihk := ih hpos
      simp only [afterAllocations]
      rw [NextRequestID_closed _ (by omega) (by omega)]
      simp only [ihk]
      omega

/-- The `k`-th id (`k ≥ 1`) allocated from a counter `c` in `[1, 65535]` is the decimal
rendering of `(c + 65532 + k) mod 65534 + 2`. -/
theorem nthRequestID_closed (app : App) (h1 : 1 ≤ app.requestID) (h2 : app.requestID ≤ 65535)
    (k : Nat) (hk : 1 ≤ k) :
    nthRequestID k app = Nat.repr ((app.requestID + 65532 + k) % 65534 + 2) := by
  unfold nthRequestID
  rcases Nat.lt_or_ge (k - 1) 1 with h0 | hpos
  · have hk1 : k - 1 = 0 := by omega
    rw [hk1]
    simp only [afterAllocations]
    rw [NextRequestID_closed app h1 h2]
    exact congrArg Nat.repr (by omega)
  · have hc := afterAllocations_requestID app h1 h2 (k - 1) hpos
    rw [NextRequestID_closed _ (by omega) (by omega)]
    exact congrArg Nat.repr (by rw [hc]; omega)

/-- C1 (the code at the failing input): after `SubscribeMarketData("EUR/USD")` and then
`UnsubscribeMarketData()` exactly two market data requests have been sent; the first
carries the MDReqID `EUR/USD_Request_`, the second `EUR_USD_Request_`, and the two
tokens are different strings. -/
theorem subscribe_unsubscribe_tokens (app : App) :
    ∃ m1 m2 t1 t2,
      (UnsubscribeMarketData (SubscribeMarketData app "EUR/USD")).sent
        = app.sent ++ [(m1, t1), (m2, t2)] ∧
      m1.requestToken = "EUR/USD_Request_" ∧ m2.requestToken = "EUR_USD_Request_" ∧
      m1.requestToken ≠ m2.requestToken := by
  refine ⟨Outbound.MarketDataRequest "EUR/USD_Request_"
      SubscriptionRequestType.SNAPSHOT_PLUS_UPDATES 0 1 ["EUR/USD"] mdEntryTypes,
    Outbound.MarketDataRequest "EUR_USD_Request_"
      SubscriptionRequestType.DISABLE_PREVIOUS_SNAPSHOT_PLUS_UPDATE_REQUEST 0 1 ["EUR/USD"]
      mdEntryTypes,
    sessionID app true, sessionID app true, ?_, rfl, rfl, by decide⟩
  simp [UnsubscribeMarketData, SubscribeMarketData, sendToTarget, sessionID]

/-- C2: one `NextRequestID` call.  From a counter `c` with `1 ≤ c ≤ 65534` it returns the
decimal string of `c + 1` and leaves the counter at `c + 1`; from the counter 65535 it
returns "2" and leaves the counter at 2.  Nothing else in the state changes. -/
theorem NextRequestID_single_step (app : App) :
    (1 ≤ app.requestID → app.requestID ≤ 65534 →
      NextRequestID app
        = (Nat.repr (app.requestID + 1), { app with requestID := app.requestID + 1 })) ∧
    (app.requestID = 65535 → NextRequestID app = ("2", { app with requestID := 2 })) := by
  constructor
  · intro h1 h2
    rw [NextRequestID_closed app h1 (by omega)]
    have : (app.requestID + 65533) % 65534 + 2 = app.requestID + 1 := by omega
    rw [this]
  · intro h
    rw [NextRequestID_closed app (by omega) (by omega)]
    have : (app.requestID + 65533) % 65534 + 2 = 2 := by omega
    rw [this]
    rfl

/-- C2 at concrete counters: 41 gives "42", 65534 gives "65535", 65535 gives "2". -/
theorem NextRequestID_single_step_witness :
    NextRequestID { FixApplication "t" with requestID := 41 }
      = ("42", { FixApplication "t" with requestID := 42 }) ∧
    NextRequestID { FixApplication "t" with requestID := 65534 }
      = ("65535", { FixApplication "t" with requestID := 65535 }) ∧
    NextRequestID { FixApplication "t" with requestID := 65535 }
      = ("2", { FixApplication "t" with requestID := 2 }) :=
  ⟨(NextRequestID_single_step { FixApplication "t" with requestID := 41 }).1
      (by decide) (by decide),
   (NextRequestID_single_step { FixApplication "t" with requestID := 65534 }).1
      (by decide) (by decide),
   (NextRequestID_single_step { FixApplication "t" with requestID := 65535 }).2 rfl⟩

/-- C3: from the freshly constructed application (counter 1) the `k`-th allocation, for
`1 ≤ k ≤ 65534`, returns the decimal string of `k + 1`, so the ids read as numbers strictly
increase over these calls; the 65534-th allocation returns "65535" and the 65535-th, the
one right after it, returns "2". -/
theorem fresh_allocations_increase_then_wrap (now : String) :
    (∀ k, 1 ≤ k → k ≤ 65534 → nthRequestID k (FixApplication now) = Nat.repr (k + 1)) ∧
    (∀ i j, 1 ≤ i → i < j → j ≤ 65534 →
      ∃ a b : Int, IntConvertor.convertString (nthRequestID i (FixApplication now)) = some a ∧
        IntConvertor.convertString (nthRequestID j (FixApplication now)) = some b ∧ a < b) ∧
    nthRequestID 65534 (FixApplication now) = "65535" ∧
    nthRequestID 65535 (FixApplication now) = "2" := by
  have hk : ∀ k, 1 ≤ k → k ≤ 65534 →
      nthRequestID k (FixApplication now) = Nat.repr (k + 1) := by
    intro k h1 h2
    rw [nthRequestID_closed (FixApplication now) (Nat.le_refl 1) (by show 1 ≤ 65535; decide) k h1]
    congr 1
    show (1 + 65532 + k) % 65534 + 2 = k + 1
    omega
  refine ⟨hk, ?_, ?_, ?_⟩
  · intro i j h1 hij h2
    refine ⟨(i + 1 : Nat), (j + 1 : Nat), ?_, ?_, by omega⟩
    · rw [hk i h1 (by omega)]; exact convertString_repr _
    · rw [hk j (by omega) h2]; exact convertString_repr _
  · rw [hk 65534 (by decide) (by decide)]; rfl
  · rw [nthRequestID_closed (FixApplication now) (Nat.le_refl 1) (by show 1 ≤ 65535; decide)
      65535 (by decide)]
    have h2 : ((FixApplication now).requestID + 65532 + 65535) % 65534 + 2 = 2 := by
      show (1 + 65532 + 65535) % 65534 + 2 = 2
      norm_num
    rw [h2]
    rfl

/-- C3 at concrete calls: the third allocation returns "4", and the third id is below the
seventh. -/
theorem fresh_allocations_witness :
    nthRequestID 3 (FixApplication "t") = Nat.repr 4 ∧
    ∃ a b : Int, IntConvertor.convertString (nthRequestID 3 (FixApplication "t")) = some a ∧
      IntConvertor.convertString (nthRequestID 7 (FixApplication "t")) = some b ∧ a < b :=
  ⟨(fresh_allocations_increase_then_wrap "t").1 3 (by decide) (by decide),
   (fresh_allocations_increase_then_wrap "t").2.1 3 7 (by decide) (by decide) (by decide)⟩

/-! ## Account ledger -/

/-- The loop of `RecordAccount`, started at index `pre.length` of the ledger `pre ++ suf`
with `suf` not empty and `accountID` not among the elements already passed. -/
theorem RecordAccount_loop_spec (accountID : String) :
    ∀ (suf pre : List String), suf ≠ [] → accountID ∉ pre →
      RecordAccount.loop accountID ((pre ++ suf).length : Int) suf.length pre.length
          (pre ++ suf)
        = if accountID ∈ pre ++ suf then pre ++ suf else pre ++ suf ++ [accountID] := by
  intro suf
  induction suf with
  | nil => intro pre h; exact absurd rfl h
  | cons x rest ih =>
    intro pre _ hpre
    have hget : (pre ++ x :: rest)[pre.length]? = some x := by
      rw [List.getElem?_append_right (Nat.le_refl _)]
      simp
    simp only [List.length_cons, RecordAccount.loop, hget]
    by_cases hx : x = accountID
    · simp [hx]
    · rw [if_neg hx]
      rcases List.eq_nil_or_concat rest with hnil | ⟨r, y, hr⟩
      · subst hnil
        have hlast : ((pre.length : Nat) : Int) = ((pre ++ [x]).length : Int) - 1 := by simp
        have hnot : accountID ∉ pre ++ [x] := by
          simp only [List.mem_append, List.mem_singleton, not_or]
          exact ⟨hpre, fun h => hx h.symm⟩
        simp only [List.length_nil, RecordAccount.loop, hlast, if_true, if_neg hnot]
      · have hne : rest ≠ [] := by rw [hr]; simp
        have hnotlast : ¬ (((pre.length : Nat) : Int) = ((pre ++ x :: rest).length : Int) - 1) := by
          have : 0 < rest.length := List.length_pos.mpr hne
          simp only [List.length_append, List.length_cons]
          push_cast
          omega
        have hpre2 : accountID ∉ pre ++ [x] := by
          simp only [List.mem_append, List.mem_singleton, not_or]
          exact ⟨hpre, fun h => hx h.symm⟩
        have ih2 := ih (pre ++ [x]) hne hpre2
        have e1 : (pre ++ [x]) ++ rest = pre ++ x :: rest := by simp
        have e2 : (pre ++ [x]).length = pre.length + 1 := by simp
        rw [e1, e2] at ih2
        simp only [if_neg hnotlast]
        exact ih2

theorem toSignedInt_of_lt (n : Nat) (h : n < 2 ^ 31) : toSignedInt n = (n : Int) := by
  have hm : n % 2 ^ 32 = n := Nat.mod_eq_of_lt (by omega)
  unfold toSignedInt
  rw [hm, if_pos h]

/-- On a ledger of fewer than 2^31 entries `RecordAccount` changes the ledger only: it
appends `accountID` unless it is there. -/
theorem RecordAccount_eq (app : App) (accountID : String)
    (hsize : app.list_accountID.length < 2 ^ 31) :
    RecordAccount app accountID
      = { app with list_accountID :=
            if accountID ∈ app.list_accountID then app.list_accountID
            else app.list_accountID ++ [accountID] } := by
  unfold RecordAccount
  rw [toSignedInt_of_lt _ hsize]
  by_cases h0 : app.list_accountID.length = 0
  · have hnil : app.list_accountID = [] := List.length_eq_zero.mp h0
    simp [hnil]
  · have hne : app.list_accountID ≠ [] := fun h => h0 (by simp [h])
    have hloop := RecordAccount_loop_spec accountID app.list_accountID [] hne (by simp)
    simp only [List.nil_append, List.length_nil] at hloop
    have h0i : ¬ ((app.list_accountID.length : Int) = 0) := by omega
    simp only [h0i, if_false, Int.toNat_ofNat, hloop]

/-- `findFrom` finds the pattern exactly when the pattern occurs in the text as a
contiguous block. -/
theorem findFrom_isSome (pat : List Char) :
    ∀ (s : List Char) (pos : Nat), (findFrom pat s pos).isSome = true ↔ pat <:+: s := by
  intro s
  induction s with
  | nil =>
    intro pos
    by_cases hp : pat = []
    · simp [findFrom, hp]
    · simp [findFrom, hp]
  | cons c cs ih =>
    intro pos
    rw [List.infix_cons_iff, findFrom]
    by_cases hpre : pat.isPrefixOf (c :: cs) = true
    · simp only [hpre, if_true, Option.isSome_some, true_iff]
      exact Or.inl (List.isPrefixOf_iff_prefix.mp hpre)
    · have hnot : ¬ pat <+: c :: cs := fun h => hpre (List.isPrefixOf_iff_prefix.mpr h)
      simp only [hpre, if_false, Bool.false_eq_true, ih (pos + 1)]
      constructor
      · exact Or.inr
      · rintro (h | h)
        · exact absurd h hnot
        · exact h

/-- The derived role is market data exactly when the identifier contains "MD_". -/
theorem isMarketData_iff (session : SessionID) :
    isMarketData session = true ↔ ['M', 'D', '_'] <:+: session.toString.data := by
  unfold isMarketData stdFind
  exact findFrom_isSome _ _ 0

/-- The result of the scan: either the list splits at the first session of the wanted role,
which is returned, or no session has the role and the empty handle is returned. -/
theorem scan_spec (md : Bool) : ∀ l : List SessionID,
    (∃ pre s post, l = pre ++ s :: post ∧ isMarketData s = md ∧
        (∀ t ∈ pre, isMarketData t ≠ md) ∧ sessionID.scan md l = s) ∨
    ((∀ t ∈ l, isMarketData t ≠ md) ∧ sessionID.scan md l = SessionID.empty) := by
  intro l
  induction l with
  | nil => right; simp [sessionID.scan]
  | cons a rest ih =>
    by_cases ha : isMarketData a = md
    · left
      refine ⟨[], a, rest, rfl, ha, by simp, ?_⟩
      simp [sessionID.scan, ha]
    · have hstep : sessionID.scan md (a :: rest) = sessionID.scan md rest := by
        simp [sessionID.scan, ha]
      rcases ih with ⟨pre, s, post, hl, hs, hpre, hres⟩ | ⟨hnone, hres⟩
      · left
        refine ⟨a :: pre, s, post, by simp [hl], hs, ?_, by rw [hstep, hres]⟩
        intro t ht
        rcases List.mem_cons.mp ht with h | h
        · rw [h]; exact ha
        · exact hpre t h
      · right
        refine ⟨?_, by rw [hstep, hres]⟩
        intro t ht
        rcases List.mem_cons.mp ht with h | h
        · rw [h]; exact ha
        · exact hnone t h

theorem isMarketData_empty : isMarketData SessionID.empty = false := by decide

theorem sessionID_of_none (app : App) (md : Bool)
    (h : ∀ s ∈ app.sessions, isMarketData s ≠ md) : sessionID app md = SessionID.empty := by
  rcases scan_spec md app.sessions with ⟨pre, s, post, hl, hs, _, _⟩ | ⟨_, hres⟩
  · exact absurd hs (h s (by rw [hl]; simp))
  · exact hres

theorem sessionID_role (app : App) (md : Bool) (h : sessionID app md ≠ SessionID.empty) :
    isMarketData (sessionID app md) = md ∧ sessionID app md ∈ app.sessions := by
  rcases scan_spec md app.sessions with ⟨pre, s, post, hl, hs, _, hres⟩ | ⟨_, hres⟩
  · have hres2 : sessionID app md = s := hres
    rw [hres2]
    exact ⟨hs, by rw [hl]; simp⟩
  · exact absurd hres h

theorem sessionID_true_eq_empty (app : App) (h : sessionID app true = SessionID.empty) :
    ∀ s ∈ app.sessions, isMarketData s ≠ true := by
  rcases scan_spec true app.sessions with ⟨pre, s, post, _, hrole, _, hs⟩ | ⟨hnone, _⟩
  · have hs2 : sessionID app true = s := hs
    rw [← hs2, h, isMarketData_empty] at hrole
    exact absurd hrole (by decide)
  · exact hnone

/-- C6 (amended): `sessionID(md)` returns the first session, in registration order, whose
identifier contains "MD_" exactly when `md` is true, and the empty handle when no
registered session has that role.  It returns the empty handle only if no registered
session has the role, provided the empty handle itself was not registered; for `md = true`
this holds for every registry. -/
theorem sessionID_first_match (app : App) (md : Bool) :
    (∀ s, isMarketData s = true ↔ ['M', 'D', '_'] <:+: s.toString.data) ∧
    ((∃ s ∈ app.sessions, isMarketData s = md) →
      ∃ pre s post, app.sessions = pre ++ s :: post ∧ isMarketData s = md ∧
        (∀ t ∈ pre, isMarketData t ≠ md) ∧ sessionID app md = s) ∧
    ((∀ s ∈ app.sessions, isMarketData s ≠ md) → sessionID app md = SessionID.empty) ∧
    (SessionID.empty ∉ app.sessions →
      (sessionID app md = SessionID.empty ↔ ∀ s ∈ app.sessions, isMarketData s ≠ md)) ∧
    (sessionID app true = SessionID.empty ↔ ∀ s ∈ app.sessions, isMarketData s ≠ true) := by
  refine ⟨isMarketData_iff, ?_, sessionID_of_none app md, ?_, ?_⟩
  · rintro ⟨s0, hs0, hrole⟩
    rcases scan_spec md app.sessions with h | ⟨hnone, _⟩
    · exact h
    · exact absurd hrole (hnone s0 hs0)
  · intro hreg
    constructor
    · intro hres
      rcases scan_spec md app.sessions with ⟨pre, s, post, hl, _, _, hs⟩ | ⟨hnone, _⟩
      · have hs2 : sessionID app md = s := hs
        have hmem : s ∈ app.sessions := by rw [hl]; simp
        rw [← hs2, hres] at hmem
        exact absurd hmem hreg
      · exact hnone
    · exact sessionID_of_none app md
  · exact ⟨sessionID_true_eq_empty app, sessionID_of_none app true⟩

/-- C6 on concrete registries: with only "X" registered the market data lookup returns the
empty handle; with "X", "MD_X", "MD_Y" registered the market data lookup returns the first
session of that role, and the trading lookup is empty exactly when no session has the
role. -/
theorem sessionID_first_match_witness :
    sessionID { FixApplication "t" with sessions := [⟨"X"⟩] } true = SessionID.empty ∧
    (∃ pre s post,
      ({ FixApplication "t" with sessions := [⟨"X"⟩, ⟨"MD_X"⟩, ⟨"MD_Y"⟩] } : App).sessions
        = pre ++ s :: post ∧ isMarketData s = true ∧ (∀ t ∈ pre, isMarketData t ≠ true) ∧
      sessionID { FixApplication "t" with sessions := [⟨"X"⟩, ⟨"MD_X"⟩, ⟨"MD_Y"⟩] } true = s) ∧
    (sessionID { FixApplication "t" with sessions := [⟨"X"⟩, ⟨"MD_X"⟩, ⟨"MD_Y"⟩] } false
        = SessionID.empty ↔
      ∀ s ∈ ({ FixApplication "t" with sessions := [⟨"X"⟩, ⟨"MD_X"⟩, ⟨"MD_Y"⟩] } : App).sessions,
        isMarketData s ≠ false) :=
  ⟨(sessionID_first_match { FixApplication "t" with sessions := [⟨"X"⟩] } true).2.2.1
      (by decide),
   (sessionID_first_match
      { FixApplication "t" with sessions := [⟨"X"⟩, ⟨"MD_X"⟩, ⟨"MD_Y"⟩] } true).2.1
      ⟨⟨"MD_X"⟩, by decide, by decide⟩,
   (sessionID_first_match
      { FixApplication "t" with sessions := [⟨"X"⟩, ⟨"MD_X"⟩, ⟨"MD_Y"⟩] } false).2.2.2.1
      (by decide)⟩

/-- C6 as stated fails when the empty handle itself is registered: `sessionID(false)` then
returns the empty handle although a registered session has the trading role. -/
theorem sessionID_empty_not_iff_none :
    ¬ (sessionID { FixApplication "t" with sessions := [SessionID.empty] } false
          = SessionID.empty ↔
        ∀ s ∈ ({ FixApplication "t" with sessions := [SessionID.empty] } : App).sessions,
          isMarketData s ≠ false) := by
  decide

/-- C7 (amended): with exactly "MD_X" and "X" registered, in either order,
`sessionID(true)` returns "MD_X" and `sessionID(false)` returns "X".  For every registry,
the two lookups return the same handle only when that handle is the empty one and no
market data session is registered; so no registered session other than the empty handle is
returned by both. -/
theorem sessionID_roles_exclusive (app : App) :
    ((app.sessions = [⟨"MD_X"⟩, ⟨"X"⟩] ∨ app.sessions = [⟨"X"⟩, ⟨"MD_X"⟩]) →
      sessionID app true = ⟨"MD_X"⟩ ∧ sessionID app false = ⟨"X"⟩) ∧
    (sessionID app true = sessionID app false →
      sessionID app true = SessionID.empty ∧ ∀ s ∈ app.sessions, isMarketData s = false) ∧
    (∀ s ∈ app.sessions, s ≠ SessionID.empty →
      ¬ (sessionID app true = s ∧ sessionID app false = s)) := by
  have hsame : sessionID app true = sessionID app false →
      sessionID app true = SessionID.empty ∧ ∀ s ∈ app.sessions, isMarketData s = false := by
    intro heq
    by_cases ht : sessionID app true = SessionID.empty
    · refine ⟨ht, ?_⟩
      have hnone := sessionID_true_eq_empty app ht
      intro s hs
      simpa using hnone s hs
    · exfalso
      have h1 := (sessionID_role app true ht).1
      have hf : sessionID app false ≠ SessionID.empty := by rw [← heq]; exact ht
      have h2 := (sessionID_role app false hf).1
      rw [heq, h2] at h1
      exact absurd h1 (by decide)
  refine ⟨?_, hsame, ?_⟩
  · rintro (h | h) <;> simp only [sessionID, h] <;> decide
  · rintro s _ hne ⟨h1, h2⟩
    have := (hsame (h1.trans h2.symm)).1
    rw [h1] at this
    exact hne this

/-- C7 on the registry "MD_X", "X": the registered session "X" is not returned by both
lookups; on the registry without sessions both lookups return the empty handle. -/
theorem sessionID_roles_exclusive_witness :
    (sessionID (FixApplication "t") true = SessionID.empty ∧
      ∀ s ∈ (FixApplication "t").sessions, isMarketData s = false) ∧
    (sessionID { FixApplication "t" with sessions := [⟨"MD_X"⟩, ⟨"X"⟩] } true = ⟨"MD_X"⟩ ∧
      sessionID { FixApplication "t" with sessions := [⟨"MD_X"⟩, ⟨"X"⟩] } false = ⟨"X"⟩) ∧
    ¬ (sessionID { FixApplication "t" with sessions := [⟨"MD_X"⟩, ⟨"X"⟩] } true = ⟨"X"⟩ ∧
      sessionID { FixApplication "t" with sessions := [⟨"MD_X"⟩, ⟨"X"⟩] } false = ⟨"X"⟩) :=
  ⟨(sessionID_roles_exclusive (FixApplication "t")).2.1 rfl,
   (sessionID_roles_exclusive { FixApplication "t" with sessions := [⟨"MD_X"⟩, ⟨"X"⟩] }).1
      (Or.inl rfl),
   (sessionID_roles_exclusive { FixApplication "t" with sessions := [⟨"MD_X"⟩, ⟨"X"⟩] }).2.2
      ⟨"X"⟩ (by decide) (by decide)⟩

/-- C7 as stated fails when the empty handle itself is registered: it is a registered
session and both lookups return it. -/
theorem sessionID_empty_returned_by_both :
    SessionID.empty ∈ ({ FixApplication "t" with sessions := [SessionID.empty] } : App).sessions ∧
    sessionID { FixApplication "t" with sessions := [SessionID.empty] } true
      = SessionID.empty ∧
    sessionID { FixApplication "t" with sessions := [SessionID.empty] } false
      = SessionID.empty := by
  decide

/-! ## Fan-out of position requests -/

theorem allocIds_congr : ∀ (n : Nat) (app app2 : App), app2.requestID = app.requestID →
    allocIds n app2 = allocIds n app := by
  intro n
  induction n with
  | zero => intro app app2 _; rfl
  | succ n ih =>
    intro app app2 h
    have h1 : (NextRequestID app2).1 = (NextRequestID app).1 := by simp [NextRequestID, h]
    have h2 : (NextRequestID app2).2.requestID = (NextRequestID app).2.requestID := by
      simp [NextRequestID, h]
    simp only [allocIds, h1, ih _ _ h2]

theorem allocIds_length : ∀ (n : Nat) (app : App), (allocIds n app).length = n := by
  intro n
  induction n with
  | zero => intro app; rfl
  | succ n ih => intro app; simp [allocIds, ih]

/-- The ids of `n` consecutive allocations from a counter `c` in `[1, 65535]`, in closed
form: the `j`-th (from 0) is the decimal rendering of `(c + 65533 + j) mod 65534 + 2`. -/
theorem allocIds_closed : ∀ (n : Nat) (app : App), 1 ≤ app.requestID → app.requestID ≤ 65535 →
    allocIds n app
      = (List.range n).map (fun j => Nat.repr ((app.requestID + 65533 + j) % 65534 + 2)) := by
  intro n
  induction n with
  | zero => intro app _ _; rfl
  | succ n ih =>
    intro app h1 h2
    have hstep := NextRequestID_closed app h1 h2
    have ih2 := ih (NextRequestID app).2 (by rw [hstep]; dsimp only; omega)
      (by rw [hstep]; dsimp only; omega)
    rw [allocIds, ih2, List.range_succ_eq_map, List.map_cons, List.map_map, hstep]
    dsimp only
    congr 1
    apply List.map_congr_left
    intro j _
    exact congrArg Nat.repr (by simp only [Function.comp, Nat.succ_eq_add_one]; omega)

/-- At most 65534 consecutive allocations from a counter in `[1, 65535]` return pairwise
different ids. -/
theorem allocIds_nodup (n : Nat) (app : App) (hn : n ≤ 65534) (h1 : 1 ≤ app.requestID)
    (h2 : app.requestID ≤ 65535) : (allocIds n app).Nodup := by
  rw [allocIds_closed n app h1 h2]
  refine (List.nodup_range n).map_on ?_
  intro i hi j hj hij
  have hi2 := List.mem_range.mp hi
  have hj2 := List.mem_range.mp hj
  have := repr_injective hij
  omega

/-- With fewer than 2^31 accounts the `int` bound of the loop is the ledger's length. -/
theorem GetPositions_eq_loop (app : App) (h : app.list_accountID.length < 2 ^ 31) :
    GetPositions app = GetPositions.loop app.list_accountID.length 0 app := by
  unfold GetPositions
  rw [toSignedInt_of_lt _ h]
  rfl

/-- The loop of `GetPositions` started at index `pre.length` on the ledger `pre ++ suf`:
one request per remaining account, in order, each with the next allocated id; only the
counter and the sent messages change. -/
theorem GetPositions_loop_spec : ∀ (suf pre : List String) (app : App),
    app.list_accountID = pre ++ suf →
    (GetPositions.loop suf.length pre.length app).sent
        = app.sent ++ List.zipWith
            (fun a id => (positionsRequest app.now id a, sessionID app false))
            suf (allocIds suf.length app) ∧
    (GetPositions.loop suf.length pre.length app).list_accountID = app.list_accountID ∧
    (GetPositions.loop suf.length pre.length app).sessions = app.sessions ∧
    (GetPositions.loop suf.length pre.length app).console = app.console ∧
    (GetPositions.loop suf.length pre.length app).now = app.now := by
  intro suf
  induction suf with
  | nil => intro pre app _; simp [GetPositions.loop, allocIds]
  | cons a rest ih =>
    intro pre app hl
    have hget : app.list_accountID[pre.length]? = some a := by
      rw [hl, List.getElem?_append_right (Nat.le_refl _)]
      simp
    have hl2 : (sendToTarget (NextRequestID app).2
        (positionsRequest (NextRequestID app).2.now (NextRequestID app).1 a)
        (sessionID (NextRequestID app).2 false)).list_accountID = (pre ++ [a]) ++ rest := by
      simp [sendToTarget, NextRequestID, hl]
    have ih2 := ih (pre ++ [a]) _ hl2
    have e2 : (pre ++ [a]).length = pre.length + 1 := by simp
    rw [e2] at ih2
    have hids := allocIds_congr rest.length (NextRequestID app).2
      (sendToTarget (NextRequestID app).2
        (positionsRequest (NextRequestID app).2.now (NextRequestID app).1 a)
        (sessionID (NextRequestID app).2 false)) rfl
    simp only [List.length_cons, GetPositions.loop, hget]
    obtain ⟨hs, hla, hse, hco, hno⟩ := ih2
    rw [hids] at hs
    refine ⟨?_, ?_, ?_, ?_, ?_⟩
    · rw [hs]
      simp [sendToTarget, NextRequestID, sessionID, allocIds]
    · rw [hla]; simp [sendToTarget, NextRequestID]
    · rw [hse]; simp [sendToTarget, NextRequestID]
    · rw [hco]; simp [sendToTarget, NextRequestID]
    · rw [hno]; simp [sendToTarget, NextRequestID]

/-- C8: for a ledger of `n ≤ 65534` accounts and a counter in `[1, 65535]`, `GetPositions`
sends exactly `n` RequestForPositions messages, in ledger order; the `i`-th carries the
`i`-th account as Account and as party sub-id, the id of the `i`-th allocation as PosReqID,
and is targeted at `sessionID(false)`; the `n` ids are pairwise distinct.  With the ledger
`["A", "B"]` exactly two requests with different ids are sent; with the empty ledger the
state, counter included, is unchanged. -/
theorem GetPositions_fan_out (app : App) (hn : app.list_accountID.length ≤ 65534)
    (h1 : 1 ≤ app.requestID) (h2 : app.requestID ≤ 65535) :
    (GetPositions app).sent
        = app.sent ++ List.zipWith
            (fun a id => (positionsRequest app.now id a, sessionID app false))
            app.list_accountID (allocIds app.list_accountID.length app) ∧
    (allocIds app.list_accountID.length app).length = app.list_accountID.length ∧
    (allocIds app.list_accountID.length app).Nodup ∧
    (GetPositions app).sent.length = app.sent.length + app.list_accountID.length ∧
    (∀ now id a, positionsRequest now id a
        = Outbound.RequestForPositions id 0 a SubscriptionRequestType.SNAPSHOT 6 now "" "FXCM" 1
            [⟨"FXCM ID", 'D', 3, 1, [⟨"10", a⟩]⟩]) ∧
    (app.list_accountID = ["A", "B"] →
      ∃ id1 id2, id1 ≠ id2 ∧
        (GetPositions app).sent
          = app.sent ++ [(positionsRequest app.now id1 "A", sessionID app false),
                         (positionsRequest app.now id2 "B", sessionID app false)]) ∧
    (app.list_accountID = [] → GetPositions app = app) := by
  have hloop := (GetPositions_loop_spec app.list_accountID [] app rfl).1
  have hunfold := GetPositions_eq_loop app (by omega)
  have hsent : (GetPositions app).sent
      = app.sent ++ List.zipWith
          (fun a id => (positionsRequest app.now id a, sessionID app false))
          app.list_accountID (allocIds app.list_accountID.length app) := by
    rw [hunfold]
    exact hloop
  have hlen := allocIds_length app.list_accountID.length app
  have hnd := allocIds_nodup app.list_accountID.length app hn h1 h2
  refine ⟨hsent, hlen, hnd, ?_, fun _ _ _ => rfl, ?_, ?_⟩
  · rw [hsent]
    simp [hlen]
  · intro hAB
    rw [hsent]
    rw [hAB] at hnd ⊢
    simp only [List.length_cons, List.length_nil, allocIds] at hnd ⊢
    refine ⟨_, _, ?_, rfl⟩
    intro heq
    rw [List.nodup_cons] at hnd
    exact hnd.1 (by rw [← heq]; simp)
  · intro hnil
    rw [hunfold, hnil]
    rfl

/-- C8 on the ledger `["A", "B"]` with the counter at 65535: two requests are sent, with
the ids "2" and "3"; on the empty ledger nothing changes. -/
theorem GetPositions_fan_out_witness :
    (GetPositions { FixApplication "t" with requestID := 65535, list_accountID := ["A", "B"] }).sent
      = [(positionsRequest "t" "2" "A", SessionID.empty),
         (positionsRequest "t" "3" "B", SessionID.empty)] ∧
    (∃ id1 id2, id1 ≠ id2 ∧
      (GetPositions
          { FixApplication "t" with requestID := 65535, list_accountID := ["A", "B"] }).sent
        = ({ FixApplication "t" with requestID := 65535, list_accountID := ["A", "B"] } : App).sent
          ++ [(positionsRequest "t" id1 "A", SessionID.empty),
              (positionsRequest "t" id2 "B", SessionID.empty)]) ∧
    GetPositions (FixApplication "t") = FixApplication "t" :=
  ⟨(GetPositions_fan_out
      { FixApplication "t" with requestID := 65535, list_accountID := ["A", "B"] }
      (by decide) (by decide) (by decide)).1.trans (by decide),
   (GetPositions_fan_out
      { FixApplication "t" with requestID := 65535, list_accountID := ["A", "B"] }
      (by decide) (by decide) (by decide)).2.2.2.2.2.1 rfl,
   (GetPositions_fan_out (FixApplication "t") (by decide) (by decide) (by decide)).2.2.2.2.2.2
      rfl⟩

/-! ## Scenarios -/

/-- C9: for a session identifier that does not contain "MD_", from the freshly constructed
application, `onCreate` sends nothing and the following `onLogon` sends exactly one
message, a TradingSessionStatusRequest targeted at that session whose TradSesReqID is the
id returned by the first `NextRequestID` call, "2". -/
theorem create_then_logon (now : String) (s : SessionID)
    (h : ¬ ['M', 'D', '_'] <:+: s.toString.data) :
    (onCreate (FixApplication now) s).sent = [] ∧
    (NextRequestID (onCreate (FixApplication now) s)).1 = "2" ∧
    (onLogon (onCreate (FixApplication now) s) s).sent
      = [(Outbound.TradingSessionStatusRequest "2" "FXCM" SubscriptionRequestType.SNAPSHOT,
          s)] := by
  have hrole : isMarketData s = false := by
    rw [← Bool.not_eq_true, isMarketData_iff]
    exact h
  have hid : (NextRequestID (onCreate (FixApplication now) s)).1 = "2" := by
    rw [NextRequestID_from_one _ rfl]
  refine ⟨rfl, hid, ?_⟩
  have hn : NextRequestID (cout (onCreate (FixApplication now) s)
      ("Session -> logon" ++ s.toString))
      = ("2", { cout (onCreate (FixApplication now) s) ("Session -> logon" ++ s.toString)
                  with requestID := 2 }) := NextRequestID_from_one _ rfl
  simp only [onLogon, GetTradingStatus, hn]
  simp [sendToTarget, sessionID, sessionID.scan, onCreate, cout, FixApplication, hrole]

/-- C9 for the session "TradingSession". -/
theorem create_then_logon_witness :
    (onLogon (onCreate (FixApplication "t") ⟨"TradingSession"⟩) ⟨"TradingSession"⟩).sent
      = [(Outbound.TradingSessionStatusRequest "2" "FXCM" SubscriptionRequestType.SNAPSHOT,
          ⟨"TradingSession"⟩)] :=
  (create_then_logon "t" ⟨"TradingSession"⟩
    (by rw [← isMarketData_iff]; decide)).2.2

theorem sameButConsole_refl (app : App) : app.sameButConsole app :=
  ⟨rfl, rfl, rfl, rfl, rfl⟩

theorem sameButConsole_cout (app app2 : App) (line : String) (h : app.sameButConsole app2) :
    app.sameButConsole (cout app2 line) := h

theorem getGroup_succ {α : Type} (groups : List α) (k : Nat) :
    getGroup groups ((k : Int) + 1) = groups[k]? := by
  unfold getGroup
  have h : ¬ ((k : Int) + 1 ≤ 0) := by omega
  rw [if_neg h]
  congr 1
  omega

/-- On a message whose `NoRelatedSym` groups all carry a Symbol, the first loop of the
`TradingSessionStatus` handler completes whenever the groups it visits exist. -/
theorem symbolsLoop_ok (tss : TradingSessionStatus)
    (hall : ∀ g ∈ tss.relatedSym, g.Symbol.isSome = true) :
    ∀ (left k : Nat) (app0 app : App), k + left ≤ tss.relatedSym.length →
      app0.sameButConsole app →
      ∃ app2, symbolsLoop tss left ((k : Int) + 1) app = some app2 ∧
        app0.sameButConsole app2 := by
  intro left
  induction left with
  | zero => intro k app0 app _ hs; exact ⟨app, rfl, hs⟩
  | succ left ih =>
    intro k app0 app hk hs
    have hlt : k < tss.relatedSym.length := by omega
    have hget : getGroup tss.relatedSym ((k : Int) + 1) = some (tss.relatedSym.get ⟨k, hlt⟩) := by
      rw [getGroup_succ]
      exact List.getElem?_eq_getElem hlt
    have hsome := hall _ (List.get_mem tss.relatedSym k hlt)
    obtain ⟨symbol, hsym⟩ := Option.isSome_iff_exists.mp hsome
    have hnext := ih (k + 1) app0 (cout app ("    Symbol -> " ++ symbol)) (by omega)
      (sameButConsole_cout app0 app _ hs)
    simp only [symbolsLoop, hget, hsym, Option.some_bind]
    have hcast : ((k : Int) + 1 + 1) = (((k + 1 : Nat)) : Int) + 1 := by push_cast; ring
    rw [hcast]
    exact hnext

/-- On a message whose `FXCMNoParam` groups all carry name and value, the second loop of
the `TradingSessionStatus` handler completes whenever the groups it visits exist. -/
theorem paramsLoop_ok (tss : TradingSessionStatus)
    (hall : ∀ g ∈ tss.params, g.FXCMParamName.isSome = true ∧ g.FXCMParamValue.isSome = true) :
    ∀ (left k : Nat) (app0 app : App), k + left ≤ tss.params.length →
      app0.sameButConsole app →
      ∃ app2, paramsLoop tss left ((k : Int) + 1) app = some app2 ∧
        app0.sameButConsole app2 := by
  intro left
  induction left with
  | zero => intro k app0 app _ hs; exact ⟨app, rfl, hs⟩
  | succ left ih =>
    intro k app0 app hk hs
    have hlt : k < tss.params.length := by omega
    have hget : getGroup tss.params ((k : Int) + 1) = some (tss.params.get ⟨k, hlt⟩) := by
      rw [getGroup_succ]
      exact List.getElem?_eq_getElem hlt
    have hsome := hall _ (List.get_mem tss.params k hlt)
    obtain ⟨name, hname⟩ := Option.isSome_iff_exists.mp hsome.1
    obtain ⟨value, hvalue⟩ := Option.isSome_iff_exists.mp hsome.2
    have hnext := ih (k + 1) app0
      (cout app ("    Param Name -> " ++ name ++ " - Param Value -> " ++ value)) (by omega)
      (sameButConsole_cout app0 app _ hs)
    simp only [paramsLoop, hget, hname, hvalue, Option.some_bind]
    have hcast : ((k : Int) + 1 + 1) = (((k + 1 : Nat)) : Int) + 1 := by push_cast; ring
    rw [hcast]
    exact hnext

/-- On a report whose sub-groups all carry type and value, the loop of the
`CollateralReport` handler completes whenever the sub-groups it visits exist. -/
theorem subIDLoop_ok (group : ReportPartyGroup)
    (hall : ∀ g ∈ group.subGroups, g.PartySubIDType.isSome = true ∧ g.PartySubID.isSome = true) :
    ∀ (left k : Nat) (app0 app : App), k + left ≤ group.subGroups.length →
      app0.sameButConsole app →
      ∃ app2, subIDLoop group left ((k : Int) + 1) app = some app2 ∧
        app0.sameButConsole app2 := by
  intro left
  induction left with
  | zero => intro k app0 app _ hs; exact ⟨app, rfl, hs⟩
  | succ left ih =>
    intro k app0 app hk hs
    have hlt : k < group.subGroups.length := by omega
    have hget : getGroup group.subGroups ((k : Int) + 1)
        = some (group.subGroups.get ⟨k, hlt⟩) := by
      rw [getGroup_succ]
      exact List.getElem?_eq_getElem hlt
    have hsome := hall _ (List.get_mem group.subGroups k hlt)
    obtain ⟨ty, hty⟩ := Option.isSome_iff_exists.mp hsome.1
    obtain ⟨value, hvalue⟩ := Option.isSome_iff_exists.mp hsome.2
    have hnext := ih (k + 1) app0 (cout app ("    " ++ ty ++ " -> " ++ value)) (by omega)
      (sameButConsole_cout app0 app _ hs)
    simp only [subIDLoop, hget, hty, hvalue, Option.some_bind]
    have hcast : ((k : Int) + 1 + 1) = (((k + 1 : Nat)) : Int) + 1 := by push_cast; ring
    rw [hcast]
    exact hnext

/-- A well-formed `TradingSessionStatus` is handled to the end: one CollateralInquiry with
the next id is sent to `sessionID(false)`; ledger and sessions are unchanged. -/
theorem onMessage_TradingSessionStatus_ok (app : App) (tss : TradingSessionStatus)
    (h : tss.wellFormed) :
    ∃ app2, onMessage_TradingSessionStatus app tss = some app2 ∧
      app2.sent = app.sent ++ [(Outbound.CollateralInquiry (NextRequestID app).1 "FXCM"
        SubscriptionRequestType.SNAPSHOT, sessionID app false)] ∧
      app2.list_accountID = app.list_accountID ∧ app2.sessions = app.sessions ∧
      app2.requestID = (NextRequestID app).2.requestID ∧ app2.now = app.now := by
  obtain ⟨hst, hsym, hsymAll, hpar, hparAll⟩ := h
  obtain ⟨st, hst2⟩ := Option.isSome_iff_exists.mp hst
  obtain ⟨symStr, hsymStr, hsymCount⟩ := Option.bind_eq_some.mp hsym
  obtain ⟨parStr, hparStr, hparCount⟩ := Option.bind_eq_some.mp hpar
  obtain ⟨appA, hA, sA⟩ := symbolsLoop_ok tss hsymAll tss.relatedSym.length 0 app
    (cout (cout app ("TradingSessionStatus -> TradSesStatus -" ++ st))
      "  SecurityList via TradingSessionStatus -> ") (by omega) (sameButConsole_refl app)
  obtain ⟨appB, hB, sB⟩ := paramsLoop_ok tss hparAll (tss.params.length - 1) 0 app
    (cout appA "  System Parameters via TradingSessionStatus -> ") (by omega) sA
  have e1 : ((tss.relatedSym.length : Int)).toNat = tss.relatedSym.length := by simp
  have e2 : ((tss.params.length : Int) - 1).toNat = tss.params.length - 1 := by omega
  have e3 : ((0 : Nat) : Int) + 1 = 1 := by norm_num
  rw [e3] at hA hB
  refine ⟨GetAccounts appB, ?_, ?_, ?_, ?_, ?_, ?_⟩
  · simp only [onMessage_TradingSessionStatus, hst2, hsymStr, hsymCount, hparStr, hparCount,
      Option.some_bind, e1, e2, hA, hB]
  · obtain ⟨hr, hs, _, hsent, _⟩ := sB
    simp [GetAccounts, sendToTarget, NextRequestID, sessionID, ← hr, ← hs, ← hsent]
  · simp [GetAccounts, sendToTarget, NextRequestID, sB.2.2.1]
  · simp [GetAccounts, sendToTarget, NextRequestID, sB.2.1]
  · simp [GetAccounts, sendToTarget, NextRequestID, sB.1]
  · simp [GetAccounts, sendToTarget, NextRequestID, sB.2.2.2.2]

/-- A well-formed `CollateralReport` is handled to the end: its account is recorded, that
is, appended to the ledger unless already there; nothing is sent. -/
theorem onMessage_CollateralReport_ok (app : App) (cr : CollateralReport) (a : String)
    (h : cr.wellFormed) (ha : cr.Account = some a)
    (hsize : app.list_accountID.length < 2 ^ 31) :
    ∃ app2, onMessage_CollateralReport app cr = some app2 ∧
      app2.list_accountID
        = (if a ∈ app.list_accountID then app.list_accountID else app.list_accountID ++ [a]) ∧
      app2.sent = app.sent ∧ app2.sessions = app.sessions ∧
      app2.requestID = app.requestID ∧ app2.now = app.now := by
  obtain ⟨_, hbal, hlen, hgroups⟩ := h
  obtain ⟨balance, hbal2⟩ := Option.isSome_iff_exists.mp hbal
  obtain ⟨group, hparties⟩ := List.length_eq_one.mp hlen
  obtain ⟨hcount, hsubAll⟩ := hgroups group (by rw [hparties]; simp)
  obtain ⟨subStr, hsubStr, hsubCount⟩ := Option.bind_eq_some.mp hcount
  obtain ⟨appA, hA, sA⟩ := subIDLoop_ok group hsubAll group.subGroups.length 0 app
    (cout (cout (cout (cout app "CollateralReport -> ") ("  AccountID -> " ++ a))
      ("  Balance -> " ++ balance)) "  Parties -> ") (by omega) (sameButConsole_refl app)
  have e1 : ((group.subGroups.length : Int)).toNat = group.subGroups.length := by simp
  have e3 : ((0 : Nat) : Int) + 1 = 1 := by norm_num
  have hg : getGroup cr.parties 1 = some group := by rw [hparties]; rfl
  rw [e3] at hA
  obtain ⟨hr, hs, hl, hsent, hnow⟩ := sA
  have hsizeA : appA.list_accountID.length < 2 ^ 31 := by rw [← hl]; exact hsize
  refine ⟨RecordAccount appA a, ?_, ?_, ?_, ?_, ?_, ?_⟩
  · simp only [onMessage_CollateralReport, ha, hbal2, hg, hsubStr, hsubCount,
      Option.some_bind, e1, hA]
  · rw [RecordAccount_eq _ _ hsizeA, hl]
  · rw [RecordAccount_eq _ _ hsizeA, hsent]
  · rw [RecordAccount_eq _ _ hsizeA, hs]
  · rw [RecordAccount_eq _ _ hsizeA, hr]
  · rw [RecordAccount_eq _ _ hsizeA, hnow]

/-- C10: starting from an empty ledger, a well-formed TradingSessionStatus is handled by
sending exactly one CollateralInquiry to `sessionID(false)` without changing the ledger; a
following well-formed CollateralReport with Account `a` makes the ledger `[a]`; a further
well-formed CollateralReport with the same Account leaves the ledger `[a]`. -/
theorem session_status_then_reports (app : App) (tss : TradingSessionStatus)
    (cr cr2 : CollateralReport) (a : String) (h0 : app.list_accountID = [])
    (htss : tss.wellFormed) (hcr : cr.wellFormed) (ha : cr.Account = some a)
    (hcr2 : cr2.wellFormed) (ha2 : cr2.Account = some a) :
    ∃ app1 app2 app3,
      onMessage_TradingSessionStatus app tss = some app1 ∧
      app1.sent = app.sent ++ [(Outbound.CollateralInquiry (NextRequestID app).1 "FXCM"
        SubscriptionRequestType.SNAPSHOT, sessionID app false)] ∧
      app1.list_accountID = [] ∧
      onMessage_CollateralReport app1 cr = some app2 ∧
      app2.list_accountID = [a] ∧ app2.sent = app1.sent ∧
      onMessage_CollateralReport app2 cr2 = some app3 ∧
      app3.list_accountID = [a] ∧ app3.sent = app1.sent := by
  obtain ⟨app1, h1, hsent1, hl1, _, _, _⟩ := onMessage_TradingSessionStatus_ok app tss htss
  have hl1b : app1.list_accountID = [] := by rw [hl1, h0]
  obtain ⟨app2, h2, hl2, hsent2, _, _, _⟩ := onMessage_CollateralReport_ok app1 cr a hcr ha
    (by rw [hl1b]; simp)
  rw [hl1, h0] at hl2
  have hl2b : app2.list_accountID = [a] := by simpa using hl2
  obtain ⟨app3, h3, hl3, hsent3, _, _, _⟩ := onMessage_CollateralReport_ok app2 cr2 a hcr2 ha2
    (by rw [hl2b]; simp)
  rw [hl2b] at hl3
  have hl3b : app3.list_accountID = [a] := by simpa using hl3
  exact ⟨app1, app2, app3, h1, hsent1, by rw [hl1, h0], h2, hl2b, hsent2, h3, hl3b,
    by rw [hsent3, hsent2]⟩

/-- C10 for the account "U1000": a session status with one symbol and two parameters,
then the same account report twice, from the freshly constructed application. -/
theorem session_status_then_reports_witness :
    ∃ app1 app2 app3,
      onMessage_TradingSessionStatus (FixApplication "t")
        ⟨some "2", some "1", [⟨some "EUR/USD"⟩], some "2",
          [⟨some "BASE_CRNCY", some "USD"⟩, ⟨some "SERVER_TIME_UTC", some "Y"⟩]⟩ = some app1 ∧
      app1.sent = (FixApplication "t").sent ++
        [(Outbound.CollateralInquiry (NextRequestID (FixApplication "t")).1 "FXCM"
          SubscriptionRequestType.SNAPSHOT, sessionID (FixApplication "t") false)] ∧
      app1.list_accountID = [] ∧
      onMessage_CollateralReport app1
        ⟨some "U1000", some "50000.00", [⟨some "1", [⟨some "2", some "U1000"⟩]⟩]⟩ = some app2 ∧
      app2.list_accountID = ["U1000"] ∧ app2.sent = app1.sent ∧
      onMessage_CollateralReport app2
        ⟨some "U1000", some "50000.00", [⟨some "1", [⟨some "2", some "U1000"⟩]⟩]⟩ = some app3 ∧
      app3.list_accountID = ["U1000"] ∧ app3.sent = app1.sent :=
  session_status_then_reports (FixApplication "t")
    ⟨some "2", some "1", [⟨some "EUR/USD"⟩], some "2",
      [⟨some "BASE_CRNCY", some "USD"⟩, ⟨some "SERVER_TIME_UTC", some "Y"⟩]⟩
    ⟨some "U1000", some "50000.00", [⟨some "1", [⟨some "2", some "U1000"⟩]⟩]⟩
    ⟨some "U1000", some "50000.00", [⟨some "1", [⟨some "2", some "U1000"⟩]⟩]⟩
    "U1000" rfl (by decide) (by decide) rfl (by decide) rfl

/-! ## Presence checks in the inbound handlers -/

theorem createAll_sessions : ∀ (created : List SessionID) (app : App),
    (createAll app created).sessions = app.sessions ++ created := by
  intro created
  induction created with
  | nil => intro app; simp [createAll]
  | cons s rest ih =>
    intro app
    have hstep : createAll app (s :: rest) = createAll (onCreate app s) rest := rfl
    rw [hstep, ih]
    simp [onCreate, cout]

theorem roleCount_append (md : Bool) (l : List SessionID) (s : SessionID) :
    roleCount md (l ++ [s]) = roleCount md l + (if isMarketData s = md then 1 else 0) := by
  unfold roleCount
  rw [List.filter_append, List.length_append]
  by_cases h : isMarketData s = md
  · simp [h]
  · simp [h]

/-- C13 (amended): `onCreate` appends without looking at the registry.  The state reached
from the initial application through session-creation notifications has exactly the
notified sessions registered, in order; each notification raises the number of registered
sessions of the notified session's role by one and leaves the other role's number
unchanged; so the registry holds at most one session of a role exactly when at most one
session of that role was notified. -/
theorem registry_is_the_notified_list (now : String) (created : List SessionID) :
    (createAll (FixApplication now) created).sessions = created ∧
    (∀ (app : App) (s : SessionID) (md : Bool),
      roleCount md (onCreate app s).sessions
        = roleCount md app.sessions + (if isMarketData s = md then 1 else 0)) ∧
    (∀ md, roleCount md (createAll (FixApplication now) created).sessions ≤ 1 ↔
      roleCount md created ≤ 1) ∧
    (created.length ≤ 1 →
      ∀ md, roleCount md (createAll (FixApplication now) created).sessions ≤ 1) := by
  have hall : (createAll (FixApplication now) created).sessions = created := by
    rw [createAll_sessions]
    simp [FixApplication]
  refine ⟨hall, ?_, ?_, ?_⟩
  · intro app s md
    have hs : (onCreate app s).sessions = app.sessions ++ [s] := by simp [onCreate, cout]
    rw [hs, roleCount_append]
  · intro md
    rw [hall]
  · intro hlen md
    rw [hall]
    exact Nat.le_trans (List.length_filter_le _ _) hlen

/-- C13 after the single notification "MD_X": each role has at most one registered
session. -/
theorem registry_is_the_notified_list_witness :
    ∀ md, roleCount md (createAll (FixApplication "t") [⟨"MD_X"⟩]).sessions ≤ 1 :=
  (registry_is_the_notified_list "t" [⟨"MD_X"⟩]).2.2.2 (by decide)

/-- C13 as stated fails: after the notifications for "A" and "B" the registry holds two
sessions whose identifiers do not contain "MD_". -/
theorem two_trading_sessions_registered :
    (createAll (FixApplication "t") [⟨"A"⟩, ⟨"B"⟩]).sessions = [⟨"A"⟩, ⟨"B"⟩] ∧
    isMarketData ⟨"A"⟩ = false ∧ isMarketData ⟨"B"⟩ = false ∧
    ¬ roleCount false (createAll (FixApplication "t") [⟨"A"⟩, ⟨"B"⟩]).sessions ≤ 1 := by
  decide

/-! ## The id cycle -/

/-- C14: from any counter in `[1, 65535]` the counter is in `[2, 65535]` after every
`NextRequestID` call and the id "1" is never returned.  The ids repeat with period exactly
65534: among any 65534 consecutive allocations (the `m + 1`-st to the `m + 65534`-th) the
ids are pairwise different, and the allocation after them returns the id of the first of
them.  From the fresh allocator the `k`-th allocation, `k ≥ 1`, returns the decimal string
of `((k - 1) mod 65534) + 2`. -/
theorem request_id_cycle (app : App) (h1 : 1 ≤ app.requestID) (h2 : app.requestID ≤ 65535) :
    (∀ k, 1 ≤ k → 2 ≤ (afterAllocations k app).requestID ∧
      (afterAllocations k app).requestID ≤ 65535) ∧
    (∀ k, 1 ≤ k → nthRequestID k app ≠ "1") ∧
    (∀ m i j, 1 ≤ i → i < j → j ≤ 65534 →
      nthRequestID (m + i) app ≠ nthRequestID (m + j) app) ∧
    (∀ m, nthRequestID (m + 65535) app = nthRequestID (m + 1) app) ∧
    (∀ (now : String) (k : Nat), 1 ≤ k →
      nthRequestID k (FixApplication now) = Nat.repr ((k - 1) % 65534 + 2)) := by
  refine ⟨?_, ?_, ?_, ?_, ?_⟩
  · intro k hk
    rw [afterAllocations_requestID app h1 h2 k hk]
    omega
  · intro k hk heq
    rw [nthRequestID_closed app h1 h2 k hk] at heq
    have h : (app.requestID + 65532 + k) % 65534 + 2 = 1 := repr_injective heq
    omega
  · intro m i j hi hij hj heq
    rw [nthRequestID_closed app h1 h2 (m + i) (by omega),
      nthRequestID_closed app h1 h2 (m + j) (by omega)] at heq
    have h := repr_injective heq
    omega
  · intro m
    rw [nthRequestID_closed app h1 h2 (m + 65535) (by omega),
      nthRequestID_closed app h1 h2 (m + 1) (by omega)]
    exact congrArg Nat.repr (by omega)
  · intro now k hk
    rw [nthRequestID_closed (FixApplication now) (Nat.le_refl 1) (by show 1 ≤ 65535; decide)
      k hk]
    have hc : (FixApplication now).requestID = 1 := rfl
    exact congrArg Nat.repr (by rw [hc]; omega)

/-- C14 from the counter 65534: the first allocation returns "65535", the second "2", and
the counter after the second allocation is in range. -/
theorem request_id_cycle_witness :
    (2 ≤ (afterAllocations 2 { FixApplication "t" with requestID := 65534 }).requestID ∧
      (afterAllocations 2 { FixApplication "t" with requestID := 65534 }).requestID ≤ 65535) ∧
    nthRequestID (0 + 1) { FixApplication "t" with requestID := 65534 }
      ≠ nthRequestID (0 + 2) { FixApplication "t" with requestID := 65534 } ∧
    nthRequestID 3 (FixApplication "t") = Nat.repr ((3 - 1) % 65534 + 2) :=
  ⟨(request_id_cycle { FixApplication "t" with requestID := 65534 } (by decide)
      (by decide)).1 2 (by decide),
   (request_id_cycle { FixApplication "t" with requestID := 65534 } (by decide)
      (by decide)).2.2.1 0 1 2 (by decide) (by decide) (by decide),
   (request_id_cycle (FixApplication "t") (by decide) (by decide)).2.2.2.2 "t" 3 (by decide)⟩

/-! ## Market data snapshots -/

theorem isReported_cons_other {D : Type} (ops : DoubleOps D) (ty : String) (init : D)
    (g : MDEntryGroup) (rest : List MDEntryGroup) (price : D) (h : g.MDEntryType ≠ some ty)
    (hr : IsReported ops ty init rest price) : IsReported ops ty init (g :: rest) price := by
  unfold IsReported at hr ⊢
  unfold lastOfType
  cases hl : lastOfType ty rest with
  | none => rw [hl] at hr; simpa [h] using hr
  | some x => rw [hl] at hr; simpa using hr

theorem isReported_cons_same {D : Type} (ops : DoubleOps D) (ty : String) (init v : D)
    (g : MDEntryGroup) (rest : List MDEntryGroup) (price : D) (h : g.MDEntryType = some ty)
    (hv : g.MDEntryPx.bind ops.convert = some v)
    (hr : IsReported ops ty v rest price) : IsReported ops ty init (g :: rest) price := by
  unfold IsReported at hr ⊢
  unfold lastOfType
  cases hl : lastOfType ty rest with
  | none =>
    rw [hl] at hr
    simp only [h, if_true]
    rw [hr]
    exact hv
  | some x => rw [hl] at hr; simpa using hr

/-- What a completed run of the loop returns: for each of the two entry types, the price
of the last entry of that type among the entries visited, else the value held before. -/
theorem entriesLoop_result {D : Type} (ops : DoubleOps D) (mds : MarketDataSnapshotFullRefresh) :
    ∀ (left k : Nat) (i : Int) (b a b2 a2 : D), i = (k : Int) + 1 →
      entriesLoop ops mds left i (b, a) = some (b2, a2) →
      IsReported ops "0" b ((mds.entries.drop k).take left) b2 ∧
      IsReported ops "1" a ((mds.entries.drop k).take left) a2 := by
  intro left
  induction left with
  | zero =>
    intro k i b a b2 a2 _ h
    simp only [entriesLoop, Option.some.injEq, Prod.mk.injEq] at h
    simp [IsReported, lastOfType, h.1, h.2]
  | succ left ih =>
    intro k i b a b2 a2 hi h
    have hi2 : i + 1 = ((k + 1 : Nat) : Int) + 1 := by omega
    rw [entriesLoop, hi, getGroup_succ] at h
    cases hg : mds.entries[k]? with
    | none => rw [hg] at h; simp at h
    | some g =>
      obtain ⟨hlt, hgk⟩ := List.getElem?_eq_some_iff.mp hg
      have hsplit : (mds.entries.drop k).take (left + 1)
          = g :: (mds.entries.drop (k + 1)).take left := by
        rw [List.drop_eq_getElem_cons hlt, List.take_succ_cons, hgk]
      rw [hsplit]
      rw [hg] at h
      simp only [Option.some_bind] at h
      cases hty : g.MDEntryType with
      | none => rw [hty] at h; simp at h
      | some ty =>
        rw [hty] at h
        simp only [Option.some_bind] at h
        by_cases h0 : ty = "0"
        · rw [if_pos h0] at h
          cases hpx : g.MDEntryPx with
          | none => rw [hpx] at h; simp at h
          | some px =>
            rw [hpx] at h
            simp only [Option.some_bind] at h
            cases hcv : ops.convert px with
            | none => rw [hcv] at h; simp at h
            | some v =>
              rw [hcv] at h
              simp only [Option.some_bind] at h
              rw [← hi, hi2] at h
              obtain ⟨r0, r1⟩ := ih (k + 1) _ v a b2 a2 rfl h
              refine ⟨isReported_cons_same ops "0" b v g _ b2 (by rw [hty, h0])
                (by rw [hpx]; exact hcv) r0, ?_⟩
              exact isReported_cons_other ops "1" a g _ a2
                (by rw [hty, h0]; decide) r1
        · rw [if_neg h0] at h
          by_cases h1 : ty = "1"
          · rw [if_pos h1] at h
            cases hpx : g.MDEntryPx with
            | none => rw [hpx] at h; simp at h
            | some px =>
              rw [hpx] at h
              simp only [Option.some_bind] at h
              cases hcv : ops.convert px with
              | none => rw [hcv] at h; simp at h
              | some v =>
                rw [hcv] at h
                simp only [Option.some_bind] at h
                rw [← hi, hi2] at h
                obtain ⟨r0, r1⟩ := ih (k + 1) _ b v b2 a2 rfl h
                refine ⟨isReported_cons_other ops "0" b g _ b2
                  (by rw [hty, h1]; decide) r0, ?_⟩
                exact isReported_cons_same ops "1" a v g _ a2 (by rw [hty, h1])
                  (by rw [hpx]; exact hcv) r1
          · rw [if_neg h1] at h
            rw [← hi, hi2] at h
            obtain ⟨r0, r1⟩ := ih (k + 1) _ b a b2 a2 rfl h
            refine ⟨isReported_cons_other ops "0" b g _ b2 ?_ r0,
              isReported_cons_other ops "1" a g _ a2 ?_ r1⟩
            · rw [hty]; intro hc; exact h0 (Option.some.inj hc)
            · rw [hty]; intro hc; exact h1 (Option.some.inj hc)

/-- Two snapshots with the same groups at the positions below `m` give the same run of
the loop as long as it stays below `m`. -/
theorem entriesLoop_congr {D : Type} (ops : DoubleOps D)
    (mds mds2 : MarketDataSnapshotFullRefresh) (m : Nat)
    (hsame : ∀ j < m, mds.entries[j]? = mds2.entries[j]?) :
    ∀ (left k : Nat) (i : Int) (p : D × D), i = (k : Int) + 1 → k + left ≤ m →
      entriesLoop ops mds left i p = entriesLoop ops mds2 left i p := by
  intro left
  induction left with
  | zero => intro k i p _ _; rfl
  | succ left ih =>
    intro k i p hi hk
    rcases p with ⟨b, a⟩
    have ih2 : ∀ q, entriesLoop ops mds left (i + 1) q = entriesLoop ops mds2 left (i + 1) q :=
      fun q => ih (k + 1) (i + 1) q (by omega) (by omega)
    have hg : getGroup mds.entries i = getGroup mds2.entries i := by
      rw [hi, getGroup_succ, getGroup_succ]
      exact hsame k (by omega)
    simp only [entriesLoop, hg, ih2]

/-- The loop completes when the groups it visits exist and are readable. -/
theorem entriesLoop_ok {D : Type} (ops : DoubleOps D) (mds : MarketDataSnapshotFullRefresh)
    (m : Nat) (hm : m ≤ mds.entries.length)
    (hread : ∀ g ∈ mds.entries.take m, entryReadable ops g = true) :
    ∀ (left k : Nat) (i : Int) (p : D × D), i = (k : Int) + 1 → k + left ≤ m →
      ∃ q, entriesLoop ops mds left i p = some q := by
  intro left
  induction left with
  | zero => intro k i p _ _; exact ⟨p, rfl⟩
  | succ left ih =>
    intro k i p hi hk
    rcases p with ⟨b, a⟩
    have hlt : k < mds.entries.length := by omega
    have hg : getGroup mds.entries i = some (mds.entries.get ⟨k, hlt⟩) := by
      rw [hi, getGroup_succ]
      exact List.getElem?_eq_getElem hlt
    have hmem : mds.entries.get ⟨k, hlt⟩ ∈ mds.entries.take m := by
      apply List.getElem?_mem (n := k)
      rw [List.getElem?_take_of_lt (by omega)]
      exact List.getElem?_eq_getElem hlt
    have hr := hread _ hmem
    unfold entryReadable at hr
    have ih2 : ∀ q, ∃ r, entriesLoop ops mds left (i + 1) q = some r :=
      fun q => ih (k + 1) (i + 1) q (by omega) (by omega)
    cases hty : (mds.entries.get ⟨k, hlt⟩).MDEntryType with
    | none => rw [hty] at hr; simp at hr
    | some ty =>
      rw [hty] at hr
      dsimp only at hr
      simp only [entriesLoop, hg, hty, Option.some_bind]
      by_cases h0 : ty = "0"
      · rw [if_pos (Or.inl h0)] at hr
        obtain ⟨v, hv⟩ := Option.isSome_iff_exists.mp hr
        obtain ⟨px, hpx2, hcv⟩ := Option.bind_eq_some.mp hv
        simp only [h0, if_true, hpx2, hcv, Option.some_bind]
        exact ih2 _
      · by_cases h1 : ty = "1"
        · rw [if_pos (Or.inr h1)] at hr
          obtain ⟨v, hv⟩ := Option.isSome_iff_exists.mp hr
          obtain ⟨px, hpx2, hcv⟩ := Option.bind_eq_some.mp hv
          simp only [h1, if_true, hpx2, hcv, Option.some_bind]
          exact ih2 _
        · simp only [h0, h1, if_false]
          exact ih2 _

/-- The state after `cout` of the snapshot line, written out. -/
theorem cout_snapshotLine {D : Type} (ops : DoubleOps D) (app : App) (symbol : String)
    (bid ask : D) :
    cout app (snapshotLine ops symbol bid ask)
      = { app with
          console := app.console ++
            ["MarketDataSnapshotFullRefresh -> Symbol - " ++ symbol ++ " Bid - "
              ++ ops.print bid ++ " Ask - " ++ ops.print ask] } := rfl

/-- C15: for a snapshot whose NoMDEntries count is `n` the handler inspects the entries
1 to `n - 1` only.  When it is handled to the end, the handler has appended to the console
exactly one line, `MarketDataSnapshotFullRefresh -> Symbol - <symbol> Bid - <bid> Ask -
<ask>`, and changed nothing else; the bid (resp. ask) printed in it is the price of the
last entry of type "0" (resp. "1") among the first `n - 1` entries, or 0 when there is
none.  It is handled to the end when the symbol is present and the first `n - 1` entries
exist and are readable.  Whatever stands at position `n` or later has no influence: two
snapshots with the same symbol, count and first `n - 1` entries are handled alike.  A
snapshot with count 1 reports bid 0 and ask 0. -/
theorem snapshot_skips_last_entry {D : Type} (ops : DoubleOps D) (app : App)
    (mds : MarketDataSnapshotFullRefresh) (n : Int)
    (hn : mds.NoMDEntries.bind IntConvertor.convertString = some n) :
    (∀ app2, onMessage_MarketDataSnapshotFullRefresh ops app mds = some app2 →
      ∃ symbol bid ask, mds.Symbol = some symbol ∧
        app2 = { app with
          console := app.console ++
            ["MarketDataSnapshotFullRefresh -> Symbol - " ++ symbol ++ " Bid - "
              ++ ops.print bid ++ " Ask - " ++ ops.print ask] } ∧
        IsReported ops "0" ops.zero (mds.entries.take (n - 1).toNat) bid ∧
        IsReported ops "1" ops.zero (mds.entries.take (n - 1).toNat) ask) ∧
    (mds.Symbol.isSome = true → (n - 1).toNat ≤ mds.entries.length →
      (∀ g ∈ mds.entries.take (n - 1).toNat, entryReadable ops g = true) →
      ∃ app2, onMessage_MarketDataSnapshotFullRefresh ops app mds = some app2) ∧
    (∀ mds2 : MarketDataSnapshotFullRefresh, mds2.Symbol = mds.Symbol →
      mds2.NoMDEntries = mds.NoMDEntries →
      mds2.entries.take (n - 1).toNat = mds.entries.take (n - 1).toNat →
      onMessage_MarketDataSnapshotFullRefresh ops app mds2
        = onMessage_MarketDataSnapshotFullRefresh ops app mds) ∧
    (n = 1 → ∀ symbol, mds.Symbol = some symbol →
      onMessage_MarketDataSnapshotFullRefresh ops app mds
        = some { app with
            console := app.console ++
              ["MarketDataSnapshotFullRefresh -> Symbol - " ++ symbol ++ " Bid - "
                ++ ops.print ops.zero ++ " Ask - " ++ ops.print ops.zero] }) := by
  obtain ⟨str, hstr, hcount⟩ := Option.bind_eq_some.mp hn
  have e0 : ((0 : Nat) : Int) + 1 = 1 := by norm_num
  refine ⟨?_, ?_, ?_, ?_⟩
  · intro app2 h
    cases hsym : mds.Symbol with
    | none => simp [onMessage_MarketDataSnapshotFullRefresh, hsym] at h
    | some symbol =>
      simp only [onMessage_MarketDataSnapshotFullRefresh, hsym, hstr, hcount,
        Option.some_bind] at h
      obtain ⟨prices, hloop, hres⟩ := Option.bind_eq_some.mp h
      rcases prices with ⟨bid, ask⟩
      obtain ⟨r0, r1⟩ := entriesLoop_result ops mds (n - 1).toNat 0 1 ops.zero ops.zero
        bid ask e0.symm hloop
      rw [List.drop_zero] at r0 r1
      refine ⟨symbol, bid, ask, rfl, ?_, r0, r1⟩
      rw [← cout_snapshotLine]
      exact (Option.some.inj hres).symm
  · intro hsym hlen hread
    obtain ⟨symbol, hsym2⟩ := Option.isSome_iff_exists.mp hsym
    obtain ⟨q, hq⟩ := entriesLoop_ok ops mds (n - 1).toNat hlen hread (n - 1).toNat 0 1
      (ops.zero, ops.zero) e0.symm (by omega)
    refine ⟨cout app (snapshotLine ops symbol q.1 q.2), ?_⟩
    simp only [onMessage_MarketDataSnapshotFullRefresh, hsym2, hstr, hcount,
      Option.some_bind, hq]
  · intro mds2 hs hc htake
    have hsame : ∀ j < (n - 1).toNat, mds2.entries[j]? = mds.entries[j]? := by
      intro j hj
      rw [← List.getElem?_take_of_lt hj, htake, List.getElem?_take_of_lt hj]
    have hloop := entriesLoop_congr ops mds2 mds (n - 1).toNat hsame (n - 1).toNat 0 1
      (ops.zero, ops.zero) e0.symm (by omega)
    unfold onMessage_MarketDataSnapshotFullRefresh
    rw [hs, hc, hstr]
    cases mds.Symbol with
    | none => rfl
    | some symbol => simp only [Option.some_bind, hcount, hloop]
  · intro h1 symbol hsym
    subst h1
    rw [← cout_snapshotLine]
    simp [onMessage_MarketDataSnapshotFullRefresh, hsym, hstr, hcount, entriesLoop]

/-- C15 on a snapshot with the count 3 and the entries bid 1.1, ask 1.2, bid 9.9: the
handler writes the line `... Symbol - EUR/USD Bid - 1.1 Ask - 1.2`, the bid and ask of the
first two entries; replacing the third entry changes nothing; with the count 1 the line
carries bid 0 and ask 0. -/
theorem snapshot_skips_last_entry_witness :
    (∃ app2, onMessage_MarketDataSnapshotFullRefresh textDoubles (FixApplication "t")
        ⟨some "EUR/USD", some "3",
          [⟨some "0", some "1.1"⟩, ⟨some "1", some "1.2"⟩, ⟨some "0", some "9.9"⟩]⟩
        = some app2) ∧
    (∃ symbol bid ask, some "EUR/USD" = some symbol ∧
      ({ FixApplication "t" with
          console := ["MarketDataSnapshotFullRefresh -> Symbol - EUR/USD Bid - 1.1 Ask - 1.2"] }
        : App)
        = { FixApplication "t" with
            console := (FixApplication "t").console ++
              ["MarketDataSnapshotFullRefresh -> Symbol - " ++ symbol ++ " Bid - "
                ++ textDoubles.print bid ++ " Ask - " ++ textDoubles.print ask] } ∧
      IsReported textDoubles "0" textDoubles.zero
        (List.take ((3 : Int) - 1).toNat
          [⟨some "0", some "1.1"⟩, ⟨some "1", some "1.2"⟩, ⟨some "0", some "9.9"⟩]) bid ∧
      IsReported textDoubles "1" textDoubles.zero
        (List.take ((3 : Int) - 1).toNat
          [⟨some "0", some "1.1"⟩, ⟨some "1", some "1.2"⟩, ⟨some "0", some "9.9"⟩]) ask) ∧
    onMessage_MarketDataSnapshotFullRefresh textDoubles (FixApplication "t")
        ⟨some "EUR/USD", some "3",
          [⟨some "0", some "1.1"⟩, ⟨some "1", some "1.2"⟩, ⟨none, none⟩]⟩
      = onMessage_MarketDataSnapshotFullRefresh textDoubles (FixApplication "t")
        ⟨some "EUR/USD", some "3",
          [⟨some "0", some "1.1"⟩, ⟨some "1", some "1.2"⟩, ⟨some "0", some "9.9"⟩]⟩ ∧
    onMessage_MarketDataSnapshotFullRefresh textDoubles (FixApplication "t")
        ⟨some "EUR/USD", some "1", [⟨some "0", some "1.1"⟩]⟩
      = some { FixApplication "t" with
          console := ["MarketDataSnapshotFullRefresh -> Symbol - EUR/USD Bid - 0 Ask - 0"] } :=
  ⟨(snapshot_skips_last_entry textDoubles (FixApplication "t")
      ⟨some "EUR/USD", some "3",
        [⟨some "0", some "1.1"⟩, ⟨some "1", some "1.2"⟩, ⟨some "0", some "9.9"⟩]⟩ 3 rfl).2.1
      rfl (by decide) (by decide),
   (snapshot_skips_last_entry textDoubles (FixApplication "t")
      ⟨some "EUR/USD", some "3",
        [⟨some "0", some "1.1"⟩, ⟨some "1", some "1.2"⟩, ⟨some "0", some "9.9"⟩]⟩ 3 rfl).1
      { FixApplication "t" with
        console := ["MarketDataSnapshotFullRefresh -> Symbol - EUR/USD Bid - 1.1 Ask - 1.2"] }
      (by decide),
   (snapshot_skips_last_entry textDoubles (FixApplication "t")
      ⟨some "EUR/USD", some "3",
        [⟨some "0", some "1.1"⟩, ⟨some "1", some "1.2"⟩, ⟨some "0", some "9.9"⟩]⟩ 3 rfl).2.2.1
      ⟨some "EUR/USD", some "3",
        [⟨some "0", some "1.1"⟩, ⟨some "1", some "1.2"⟩, ⟨none, none⟩]⟩ rfl rfl rfl,
   ((snapshot_skips_last_entry textDoubles (FixApplication "t")
      ⟨some "EUR/USD", some "1", [⟨some "0", some "1.1"⟩]⟩ 1 rfl).2.2.2 rfl "EUR/USD" rfl).trans
      (by decide)⟩

end FXCM
